import Mathlib

/-
Verification of the spectopus Schema Conversion Engine.

This file is a shallow embedding of the engine found in
src/adapters/zod.ts (Dialect-A converter), src/adapters/joi.ts
(Dialect-B converter) and src/builder/_zodResolver.ts (reference
resolver), together with theorems settling the frozen claims about it.

Modelling conventions, used consistently below:
- A JavaScript object with optional keys becomes a Lean structure whose
  fields are Option-valued; an absent key is `none`.  Object spread
  `{...a, ...b}` becomes the field-wise `merge a b` in which a field of
  `b` wins whenever it is present.
- JavaScript numbers appearing as schema constraints are modelled as
  `Int` (the engine never computes with them, it only copies them).
- JavaScript truthiness on a string-valued field (`if (x.description)`)
  is modelled as "present and non-empty".
- The canonical node type `SchemaObject` is recursive; it is realised as
  a nested inductive wrapping the field record `SchemaF`.
-/

-- ─── JSON-like literal values ────────────────────────────────────────────────

/-- Scalar JSON-like values: the literals, enum members and default values
the two dialects can carry. -/
inductive JVal where
  | null
  | bool (b : Bool)
  | int (n : Int)
  | str (s : String)
deriving DecidableEq

/-- A value of the `type` keyword: a single scalar tag or a list of tags. -/
inductive TypeField where
  | single (t : String)
  | multi (ts : List String)
deriving DecidableEq

/-- A field that holds either a boolean or a sub-schema
(`items`, `additionalProperties`). -/
inductive BoolOr (α : Type) where
  | bool (b : Bool)
  | schema (s : α)
deriving DecidableEq

-- ─── Canonical schema node (SchemaObject of src/types/openapi3_1.ts) ─────────

/-- Field record of a canonical schema node, parametrised by the node type
so that `SchemaObject` below can tie the recursive knot.  Every field the
two converters ever write is present; an absent JavaScript key is `none`. -/
structure SchemaF (α : Type) where
  type : Option TypeField := none
  description : Option String := none
  default : Option JVal := none
  readOnly : Option Bool := none
  enum : Option (List JVal) := none
  const : Option JVal := none
  anyOf : Option (List α) := none
  allOf : Option (List α) := none
  not : Option α := none
  properties : Option (List (String × α)) := none
  required : Option (List String) := none
  additionalProperties : Option (BoolOr α) := none
  items : Option (BoolOr α) := none
  prefixItems : Option (List α) := none
  minItems : Option Int := none
  maxItems : Option Int := none
  uniqueItems : Option Bool := none
  minLength : Option Int := none
  maxLength : Option Int := none
  pattern : Option String := none
  format : Option String := none
  contentEncoding : Option String := none
  minimum : Option Int := none
  maximum : Option Int := none
  exclusiveMinimum : Option Int := none
  exclusiveMaximum : Option Int := none
  multipleOf : Option Int := none
  ref : Option String := none

/-- A canonical schema node: the recursive closure of `SchemaF`. -/
inductive SchemaObject where
  | mk (f : SchemaF SchemaObject)

/-- Field record of a node. -/
def SchemaObject.f : SchemaObject → SchemaF SchemaObject
  | .mk f => f

@[simp] theorem SchemaObject.f_mk (f : SchemaF SchemaObject) :
    (SchemaObject.mk f).f = f := rfl

theorem SchemaObject.mk_f (s : SchemaObject) : SchemaObject.mk s.f = s := by
  cases s; rfl

/-- The empty permissive node, written `{}` in the source. -/
def emptyNode : SchemaObject := .mk {}

/-- Field-wise model of the JavaScript object spread `{...a, ...b}`:
a field present in `b` overrides the one of `a`. -/
def SchemaF.merge (a b : SchemaF SchemaObject) : SchemaF SchemaObject where
  type := b.type <|> a.type
  description := b.description <|> a.description
  default := b.default <|> a.default
  readOnly := b.readOnly <|> a.readOnly
  enum := b.enum <|> a.enum
  const := b.const <|> a.const
  anyOf := b.anyOf <|> a.anyOf
  allOf := b.allOf <|> a.allOf
  not := b.not <|> a.not
  properties := b.properties <|> a.properties
  required := b.required <|> a.required
  additionalProperties := b.additionalProperties <|> a.additionalProperties
  items := b.items <|> a.items
  prefixItems := b.prefixItems <|> a.prefixItems
  minItems := b.minItems <|> a.minItems
  maxItems := b.maxItems <|> a.maxItems
  uniqueItems := b.uniqueItems <|> a.uniqueItems
  minLength := b.minLength <|> a.minLength
  maxLength := b.maxLength <|> a.maxLength
  pattern := b.pattern <|> a.pattern
  format := b.format <|> a.format
  contentEncoding := b.contentEncoding <|> a.contentEncoding
  minimum := b.minimum <|> a.minimum
  maximum := b.maximum <|> a.maximum
  exclusiveMinimum := b.exclusiveMinimum <|> a.exclusiveMinimum
  exclusiveMaximum := b.exclusiveMaximum <|> a.exclusiveMaximum
  multipleOf := b.multipleOf <|> a.multipleOf
  ref := b.ref <|> a.ref

/-- Model of `Object.keys(x).length > 0` being false on a node record:
every field is absent. -/
def SchemaF.isEmptyF (a : SchemaF SchemaObject) : Bool :=
  a.type.isNone && a.description.isNone && a.default.isNone &&
  a.readOnly.isNone && a.enum.isNone && a.const.isNone &&
  a.anyOf.isNone && a.allOf.isNone && a.not.isNone &&
  a.properties.isNone && a.required.isNone &&
  a.additionalProperties.isNone && a.items.isNone &&
  a.prefixItems.isNone && a.minItems.isNone && a.maxItems.isNone &&
  a.uniqueItems.isNone && a.minLength.isNone && a.maxLength.isNone &&
  a.pattern.isNone && a.format.isNone && a.contentEncoding.isNone &&
  a.minimum.isNone && a.maximum.isNone && a.exclusiveMinimum.isNone &&
  a.exclusiveMaximum.isNone && a.multipleOf.isNone && a.ref.isNone

/-- Conversion options.  Both adapters define the same `Required<Options>`
record (`ZodToOpenAPIOptions` in zod.ts, `JoiToOpenAPIOptions` in joi.ts)
after the public entry points fill in the defaults. -/
structure ConvOptions where
  includeDescriptions : Bool := true
  includeDefaults : Bool := true
  maxDepth : Nat := 20

/-- Truthiness of a string-valued optional field: present and non-empty. -/
def truthyStr : Option String → Bool
  | some s => s ≠ ""
  | none => false

-- ─── Dialect-A (Zod) input model, from src/adapters/zod.ts ───────────────────

namespace Zod

/-- One entry of `_def.checks` on a ZodString.  `regex` carries the
`RegExp.source`; unknown kinds (which the switch of `convertZodString`
silently skips) are modelled by `other`. -/
inductive ZodStringCheck where
  | min (value : Int)
  | max (value : Int)
  | length (value : Int)
  | regex (source : String)
  | email | url | uuid | cuid | cuid2 | ulid
  | datetime | date | time | duration | ip | emoji | base64
  | startsWith (value : String)
  | endsWith (value : String)
  | includes (value : String)
  | toLowerCase | toUpperCase | trim
  | other (kind : String)
deriving DecidableEq

/-- One entry of `_def.checks` on a ZodNumber. -/
inductive ZodNumberCheck where
  | int
  | min (value : Int) (inclusive : Bool)
  | max (value : Int) (inclusive : Bool)
  | multipleOf (value : Int)
  | finite
  | other (kind : String)
deriving DecidableEq

/-- A Zod schema value, modelled by its `_def`: each constructor is one
`typeName` together with the `_def` fields `convertZodType` reads for it.
Every `_def` carries an optional `description`.  `zodDefault` and
`zodCatch` stand for the tags `ZodDefault` and `ZodCatch` (the bare names
collide with Lean keywords); `defaultValue` models the result of
`_def.defaultValue?.()` with `none` for `undefined`.  `unrecognized`
models any value whose `typeName` is not among the recognized tags. -/
inductive ZodSchema where
  | string (desc : Option String) (checks : List ZodStringCheck)
  | number (desc : Option String) (checks : List ZodNumberCheck)
  | bigInt (desc : Option String)
  | boolean (desc : Option String)
  | null (desc : Option String)
  | undefined (desc : Option String)
  | literal (desc : Option String) (value : JVal)
  | enum (desc : Option String) (values : List String)
  | nativeEnum (desc : Option String) (values : List JVal)
  | object (desc : Option String) (shape : List (String × ZodSchema))
      (unknownKeys : Option String) (catchall : Option ZodSchema)
  | array (desc : Option String) (elem : Option ZodSchema)
      (minLength maxLength exactLength : Option Int)
  | tuple (desc : Option String) (items : List ZodSchema) (rest : Option ZodSchema)
  | union (desc : Option String) (options : List ZodSchema)
  | discriminatedUnion (desc : Option String) (options : List ZodSchema)
  | intersection (desc : Option String) (left right : ZodSchema)
  | optional (desc : Option String) (innerType : ZodSchema)
  | nullable (desc : Option String) (innerType : ZodSchema)
  | zodDefault (desc : Option String) (innerType : ZodSchema) (defaultValue : Option JVal)
  | zodCatch (desc : Option String) (innerType : ZodSchema)
  | branded (desc : Option String) (type : ZodSchema)
  | readonly (desc : Option String) (innerType : ZodSchema)
  | record (desc : Option String) (valueType : Option ZodSchema)
  | map (desc : Option String)
  | set (desc : Option String) (valueType : Option ZodSchema)
  | function (desc : Option String)
  | lazy (desc : Option String)
  | promise (desc : Option String)
  | unknown (desc : Option String)
  | any (desc : Option String)
  | never (desc : Option String)
  | void (desc : Option String)
  | date (desc : Option String)
  | symbol (desc : Option String)
  | pipeline (desc : Option String) (inSchema : ZodSchema)
  | effects (desc : Option String) (schema : ZodSchema)
  | unrecognized (desc : Option String) (typeName : String)

/-- The `_def.typeName` string of a schema. -/
def ZodSchema.typeName : ZodSchema → String
  | .string .. => "ZodString"
  | .number .. => "ZodNumber"
  | .bigInt .. => "ZodBigInt"
  | .boolean .. => "ZodBoolean"
  | .null .. => "ZodNull"
  | .undefined .. => "ZodUndefined"
  | .literal .. => "ZodLiteral"
  | .enum .. => "ZodEnum"
  | .nativeEnum .. => "ZodNativeEnum"
  | .object .. => "ZodObject"
  | .array .. => "ZodArray"
  | .tuple .. => "ZodTuple"
  | .union .. => "ZodUnion"
  | .discriminatedUnion .. => "ZodDiscriminatedUnion"
  | .intersection .. => "ZodIntersection"
  | .optional .. => "ZodOptional"
  | .nullable .. => "ZodNullable"
  | .zodDefault .. => "ZodDefault"
  | .zodCatch .. => "ZodCatch"
  | .branded .. => "ZodBranded"
  | .readonly .. => "ZodReadonly"
  | .record .. => "ZodRecord"
  | .map .. => "ZodMap"
  | .set .. => "ZodSet"
  | .function .. => "ZodFunction"
  | .lazy .. => "ZodLazy"
  | .promise .. => "ZodPromise"
  | .unknown .. => "ZodUnknown"
  | .any .. => "ZodAny"
  | .never .. => "ZodNever"
  | .void .. => "ZodVoid"
  | .date .. => "ZodDate"
  | .symbol .. => "ZodSymbol"
  | .pipeline .. => "ZodPipeline"
  | .effects .. => "ZodEffects"
  | .unrecognized _ t => t

/-- The `_def.description` field, present on every `_def`. -/
def ZodSchema.description : ZodSchema → Option String
  | .string d _ | .number d _ | .bigInt d | .boolean d | .null d
  | .undefined d | .literal d _ | .enum d _ | .nativeEnum d _
  | .object d _ _ _ | .array d _ _ _ _ | .tuple d _ _
  | .union d _ | .discriminatedUnion d _ | .intersection d _ _
  | .optional d _ | .nullable d _ | .zodDefault d _ _ | .zodCatch d _
  | .branded d _ | .readonly d _ | .record d _ | .map d | .set d _
  | .function d | .lazy d | .promise d | .unknown d | .any d
  | .never d | .void d | .date d | .symbol d
  | .pipeline d _ | .effects d _ | .unrecognized d _ => d

/-- The result of `_def.defaultValue?.()` (only a ZodDefault has one). -/
def ZodSchema.defaultValue : ZodSchema → Option JVal
  | .zodDefault _ _ dv => dv
  | _ => none

/-- Embeds `isZodOptional` of zod.ts: true for a top-level ZodOptional or
ZodDefault wrapper. -/
def isZodOptional (schema : ZodSchema) : Bool :=
  let typeName := schema.typeName
  if typeName = "ZodOptional" then true
  else if typeName = "ZodDefault" then true
  else false

/-- Embeds `unwrapZodOptional` of zod.ts: strip one ZodOptional or
ZodDefault wrapper, returning `_def.innerType`. -/
def unwrapZodOptional (schema : ZodSchema) : ZodSchema :=
  match schema with
  | .optional _ inner => inner
  | .zodDefault _ inner _ => inner
  | _ => schema

/-- Characters escaped by `escapeRegex` of zod.ts
(the class `[.*+?^${}()|[\]\\]`). -/
def regexSpecials : List Char :=
  ['.', '*', '+', '?', '^', '$', '\x7b', '\x7d', '(', ')', '|', '[', ']', '\\']

/-- Embeds `escapeRegex` of zod.ts: prefix every regex special character
with a backslash. -/
def escapeRegex (str : String) : String :=
  String.mk (str.toList.foldr
    (fun c acc => if c ∈ regexSpecials then '\\' :: c :: acc else c :: acc) [])

/-- One iteration of the check loop of `convertZodString` in zod.ts.
Each arm updates exactly the fields the source arm assigns; unknown kinds
fall through unchanged. -/
def applyStringCheck (result : SchemaF SchemaObject) (check : ZodStringCheck) :
    SchemaF SchemaObject :=
  match check with
  | .min v => { result with minLength := some v }
  | .max v => { result with maxLength := some v }
  | .length v => { result with minLength := some v, maxLength := some v }
  | .regex src => { result with pattern := some src }
  | .email => { result with format := some "email" }
  | .url => { result with format := some "uri" }
  | .uuid => { result with format := some "uuid" }
  | .cuid | .cuid2 | .ulid => result
  | .datetime => { result with format := some "date-time" }
  | .date => { result with format := some "date" }
  | .time => { result with format := some "time" }
  | .duration => { result with format := some "duration" }
  | .ip => result
  | .emoji => result
  | .base64 => { result with contentEncoding := some "base64" }
  | .startsWith v => { result with pattern := some ("^" ++ escapeRegex v) }
  | .endsWith v => { result with pattern := some (escapeRegex v ++ "$") }
  | .includes v => { result with pattern := some (escapeRegex v) }
  | .toLowerCase | .toUpperCase | .trim => result
  | .other _ => result

/-- Embeds `convertZodString` of zod.ts: fold the ordered check list over
an initial `{type: "string"}` node. -/
def convertZodString (checks : List ZodStringCheck) (_opts : ConvOptions) :
    SchemaObject :=
  .mk (checks.foldl applyStringCheck { type := some (.single "string") })

/-- One iteration of the check loop of `convertZodNumber` in zod.ts,
carrying the node record together with the `isInteger` flag. -/
def applyNumberCheck (acc : SchemaF SchemaObject × Bool) (check : ZodNumberCheck) :
    SchemaF SchemaObject × Bool :=
  let (result, isInteger) := acc
  match check with
  | .int => (result, true)
  | .min v inclusive =>
      if inclusive then ({ result with minimum := some v }, isInteger)
      else ({ result with exclusiveMinimum := some v }, isInteger)
  | .max v inclusive =>
      if inclusive then ({ result with maximum := some v }, isInteger)
      else ({ result with exclusiveMaximum := some v }, isInteger)
  | .multipleOf v => ({ result with multipleOf := some v }, isInteger)
  | .finite => (result, isInteger)
  | .other _ => (result, isInteger)

/-- Embeds `convertZodNumber` of zod.ts: fold the check list tracking the
`isInteger` flag, then set `type` last, exactly as the source does. -/
def convertZodNumber (checks : List ZodNumberCheck) : SchemaObject :=
  let step := checks.foldl applyNumberCheck ({}, false)
  .mk { step.1 with
        type := some (.single (if step.2 then "integer" else "number")) }

end Zod


namespace Zod

/-- Embeds the description-metadata collection at the top of
`convertZodType` in zod.ts: attach `_def.description` when present (and
non-empty, by JavaScript truthiness) and `includeDescriptions` is set. -/
def zodMetadata (schema : ZodSchema) (opts : ConvOptions) : SchemaF SchemaObject :=
  if opts.includeDescriptions && truthyStr schema.description then
    { description := schema.description }
  else {}

/-- Fuel-indexed driver of the Dialect-A conversion.  The source function
`convertZodType` recurses with `depth + 1` and cuts off at
`depth > maxDepth`; the fuel argument `maxDepth + 1 - depth` (instantiated
by the wrapper `convertZodType` below) makes that recursion structural,
and the fuel-0 case then coincides exactly with the source depth guard.
The arms for object, array and tuple inline the bodies of the source
helpers `convertZodObject`, `convertZodArray` and `convertZodTuple`
(stated separately below, with bridge lemmas proving the inlining
faithful). -/
def convertZodTypeFuel : Nat → ZodSchema → ConvOptions → Nat → SchemaObject
  | 0, _, _, _ => emptyNode
  | fuel + 1, schema, opts, depth =>
    if depth > opts.maxDepth then
      emptyNode
    else
      let result : SchemaF SchemaObject := zodMetadata schema opts
      match schema with
      | .string _ checks => .mk (result.merge (convertZodString checks opts).f)
      | .number _ checks => .mk (result.merge (convertZodNumber checks).f)
      | .bigInt _ =>
          .mk { result with
                type := some (.single "integer"), format := some "int64" }
      | .boolean _ => .mk { result with type := some (.single "boolean") }
      | .null _ => .mk { result with type := some (.single "null") }
      | .undefined _ => .mk { result with not := some emptyNode }
      | .literal _ value => .mk { result with const := some value }
      | .enum _ values =>
          .mk { result with
                type := some (.single "string"),
                enum := some (values.map JVal.str) }
      | .nativeEnum _ values =>
          let nativeEnumValues := values.filter (fun v =>
            !(match v with | .int _ => true | _ => false) ||
            (match v with | .int _ => true | _ => false))
          let stringValues := nativeEnumValues.filter (fun v =>
            match v with | .str _ => true | _ => false)
          let numValues := nativeEnumValues.filter (fun v =>
            match v with | .int _ => true | _ => false)
          let vals := if stringValues.length > 0 then stringValues else numValues
          .mk { result with enum := some vals }
      | .object _ shape unknownKeys catchall =>
          let properties : List (String × SchemaObject) :=
            shape.map (fun kv =>
              let fieldSchema := kv.2
              let innerSchema := unwrapZodOptional fieldSchema
              let converted := convertZodTypeFuel fuel innerSchema opts (depth + 1)
              let converted :=
                if opts.includeDefaults && fieldSchema.typeName = "ZodDefault" &&
                    converted.f.default.isNone then
                  match fieldSchema.defaultValue with
                  | some defaultVal =>
                      SchemaObject.mk { converted.f with default := some defaultVal }
                  | none => converted
                else converted
              (kv.1, converted))
          let required : List String :=
            (shape.filter (fun kv => !isZodOptional kv.2)).map (fun kv => kv.1)
          let additionalField : Option (BoolOr SchemaObject) :=
            match catchall with
            | some c =>
                if c.typeName ≠ "ZodNever" then
                  some (.schema (convertZodTypeFuel fuel c opts (depth + 1)))
                else none
            | none => none
          let additionalField :=
            match additionalField with
            | some v => some v
            | none =>
                if unknownKeys = some "strict" then some (.bool false)
                else if unknownKeys = some "passthrough" then some (.bool true)
                else none
          .mk (result.merge
            { type := some (.single "object"),
              properties := if properties.isEmpty then none else some properties,
              required := if required.isEmpty then none else some required,
              additionalProperties := additionalField })
      | .array _ elem minLength maxLength exactLength =>
          let itemsField : Option (BoolOr SchemaObject) :=
            match elem with
            | some itemSchema =>
                some (.schema (convertZodTypeFuel fuel itemSchema opts (depth + 1)))
            | none => none
          let bounds : Option Int × Option Int :=
            match exactLength with
            | some v => (some v, some v)
            | none => (minLength, maxLength)
          .mk (result.merge
            { type := some (.single "array"), items := itemsField,
              minItems := bounds.1, maxItems := bounds.2 })
      | .tuple _ items rest =>
          let prefixItems : List SchemaObject :=
            items.map (fun item => convertZodTypeFuel fuel item opts (depth + 1))
          let itemsField : BoolOr SchemaObject :=
            match rest with
            | some r => .schema (convertZodTypeFuel fuel r opts (depth + 1))
            | none => .bool false
          let maxItemsField : Option Int :=
            match rest with
            | some _ => none
            | none => some (items.length : Int)
          .mk (result.merge
            { type := some (.single "array"), prefixItems := some prefixItems,
              items := some itemsField, minItems := some (items.length : Int),
              maxItems := maxItemsField })
      | .union _ options_ =>
          .mk { result with
                anyOf := some (options_.map (fun o =>
                  convertZodTypeFuel fuel o opts (depth + 1))) }
      | .discriminatedUnion _ options_ =>
          .mk { result with
                anyOf := some (options_.map (fun o =>
                  convertZodTypeFuel fuel o opts (depth + 1))) }
      | .intersection _ left right =>
          let l := convertZodTypeFuel fuel left opts (depth + 1)
          let r := convertZodTypeFuel fuel right opts (depth + 1)
          .mk { result with allOf := some [l, r] }
      | .optional _ innerType =>
          let inner := convertZodTypeFuel fuel innerType opts (depth + 1)
          .mk (result.merge inner.f)
      | .nullable _ innerType =>
          let inner := convertZodTypeFuel fuel innerType opts (depth + 1)
          match inner.f.type with
          | some (.single t) =>
              .mk { result.merge inner.f with type := some (.multi [t, "null"]) }
          | _ =>
              .mk { result with
                    anyOf := some [inner, .mk { type := some (.single "null") }] }
      | .zodDefault _ innerType defaultVal =>
          let inner := convertZodTypeFuel fuel innerType opts (depth + 1)
          let out := result.merge inner.f
          if opts.includeDefaults && defaultVal.isSome then
            .mk { out with default := defaultVal }
          else .mk out
      | .zodCatch _ innerType => convertZodTypeFuel fuel innerType opts (depth + 1)
      | .branded _ type => convertZodTypeFuel fuel type opts (depth + 1)
      | .readonly _ innerType =>
          let inner := convertZodTypeFuel fuel innerType opts (depth + 1)
          .mk { result.merge inner.f with readOnly := some true }
      | .record _ valueType =>
          let out : SchemaF SchemaObject :=
            { result with type := some (.single "object") }
          match valueType with
          | some valueSchema =>
              .mk { out with
                    additionalProperties :=
                      some (.schema (convertZodTypeFuel fuel valueSchema opts (depth + 1))) }
          | none => .mk { out with additionalProperties := some (.bool true) }
      | .map _ => .mk { result with type := some (.single "object") }
      | .set _ valueType =>
          let out : SchemaF SchemaObject :=
            { result with type := some (.single "array"), uniqueItems := some true }
          match valueType with
          | some valueSchema =>
              .mk { out with
                    items :=
                      some (.schema (convertZodTypeFuel fuel valueSchema opts (depth + 1))) }
          | none => .mk out
      | .function _ => .mk result
      | .lazy _ => .mk result
      | .promise _ => .mk result
      | .unknown _ => .mk result
      | .any _ => .mk result
      | .never _ => .mk { result with not := some emptyNode }
      | .void _ => .mk { result with type := some (.single "null") }
      | .date _ =>
          .mk { result with
                type := some (.single "string"), format := some "date-time" }
      | .symbol _ => .mk { result with type := some (.single "string") }
      | .pipeline _ inSchema => convertZodTypeFuel fuel inSchema opts (depth + 1)
      | .effects _ innerSchema => convertZodTypeFuel fuel innerSchema opts (depth + 1)
      | .unrecognized _ _ => .mk result

/-- Embeds `convertZodType` of zod.ts.  Instantiating the fuel with
`maxDepth + 1 - depth` reproduces the source exactly: the fuel runs out
precisely when `depth > maxDepth`, and every recursive call at `depth + 1`
receives exactly the fuel `maxDepth + 1 - (depth + 1)`. -/
def convertZodType (schema : ZodSchema) (opts : ConvOptions) (depth : Nat) :
    SchemaObject :=
  convertZodTypeFuel (opts.maxDepth + 1 - depth) schema opts depth

/-- Embeds `convertZodObject` of zod.ts, with the `for` loop over the
shape rendered as a map (properties) and a filter (required). -/
def convertZodObject (schema : ZodSchema) (opts : ConvOptions) (depth : Nat) :
    SchemaObject :=
  match schema with
  | .object _ shape unknownKeys catchall =>
      let properties : List (String × SchemaObject) :=
        shape.map (fun kv =>
          let fieldSchema := kv.2
          let innerSchema := unwrapZodOptional fieldSchema
          let converted := convertZodType innerSchema opts (depth + 1)
          let converted :=
            if opts.includeDefaults && fieldSchema.typeName = "ZodDefault" &&
                converted.f.default.isNone then
              match fieldSchema.defaultValue with
              | some defaultVal =>
                  SchemaObject.mk { converted.f with default := some defaultVal }
              | none => converted
            else converted
          (kv.1, converted))
      let required : List String :=
        (shape.filter (fun kv => !isZodOptional kv.2)).map (fun kv => kv.1)
      let additionalField : Option (BoolOr SchemaObject) :=
        match catchall with
        | some c =>
            if c.typeName ≠ "ZodNever" then
              some (.schema (convertZodType c opts (depth + 1)))
            else none
        | none => none
      let additionalField :=
        match additionalField with
        | some v => some v
        | none =>
            if unknownKeys = some "strict" then some (.bool false)
            else if unknownKeys = some "passthrough" then some (.bool true)
            else none
      .mk { type := some (.single "object"),
            properties := if properties.isEmpty then none else some properties,
            required := if required.isEmpty then none else some required,
            additionalProperties := additionalField }
  | _ => .mk { type := some (.single "object") }

/-- Embeds `convertZodArray` of zod.ts. -/
def convertZodArray (schema : ZodSchema) (opts : ConvOptions) (depth : Nat) :
    SchemaObject :=
  match schema with
  | .array _ elem minLength maxLength exactLength =>
      let itemsField : Option (BoolOr SchemaObject) :=
        match elem with
        | some itemSchema =>
            some (.schema (convertZodType itemSchema opts (depth + 1)))
        | none => none
      let bounds : Option Int × Option Int :=
        match exactLength with
        | some v => (some v, some v)
        | none => (minLength, maxLength)
      .mk { type := some (.single "array"), items := itemsField,
            minItems := bounds.1, maxItems := bounds.2 }
  | _ => .mk { type := some (.single "array") }

/-- Embeds `convertZodTuple` of zod.ts. -/
def convertZodTuple (schema : ZodSchema) (opts : ConvOptions) (depth : Nat) :
    SchemaObject :=
  match schema with
  | .tuple _ items rest =>
      let prefixItems : List SchemaObject :=
        items.map (fun item => convertZodType item opts (depth + 1))
      let itemsField : BoolOr SchemaObject :=
        match rest with
        | some r => .schema (convertZodType r opts (depth + 1))
        | none => .bool false
      let maxItemsField : Option Int :=
        match rest with
        | some _ => none
        | none => some (items.length : Int)
      .mk { type := some (.single "array"), prefixItems := some prefixItems,
            items := some itemsField, minItems := some (items.length : Int),
            maxItems := maxItemsField }
  | _ =>
      .mk { type := some (.single "array"), prefixItems := some [],
            items := some (.bool false), minItems := some 0, maxItems := some 0 }

/-- Embeds `zodToOpenAPI` of zod.ts; `options` is the record after the
entry point has filled in the defaults. -/
def zodToOpenAPI (schema : ZodSchema) (options : ConvOptions) : SchemaObject :=
  convertZodType schema options 0

end Zod

-- ─── Dialect-B (Joi) input model, from src/adapters/joi.ts ───────────────────

namespace Joi

/-- The flags of a Joi description that the converter consults.  An absent
`flags` object behaves exactly like one with every flag absent, so the
model collapses `flags?` to a record of optional fields. -/
structure JoiFlags where
  presence : Option String := none
  default : Option JVal := none
  description : Option String := none
  only : Option Bool := none
  allowUnknown : Option Bool := none
  unknown : Option Bool := none
deriving DecidableEq

/-- The `args.regex` payload of a pattern rule: either a live RegExp
(modelled by its `source`) or the serialized `/pattern/flags` string. -/
inductive RegexVal where
  | regexp (source : String)
  | str (s : String)
deriving DecidableEq

/-- One entry of `description.rules`, keeping exactly the `args` fields the
converter reads (`limit`, `regex`, `version`, `base`, `value`); an absent
argument is `none`. -/
structure JoiRuleF (α : Type) where
  name : String
  argLimit : Option Int := none
  argRegex : Option RegexVal := none
  argVersion : Option (List String) := none
  argBase : Option Int := none
  argValue : Option α := none

/-- One entry of `description.matches`; the converter reads only the plain
`schema` member (conditional `is`/`then`/`otherwise` matches have no
`schema` and are dropped, which `none` models). -/
structure JoiMatchF (α : Type) where
  schema : Option α := none

/-- Field record of a Joi `describe()` output, parametrised by the
description type so the recursive knot can be tied below.  List-valued
members collapse an absent array and an empty array into `[]` (the
converter treats the two identically). -/
structure JoiDescF (α : Type) where
  type : String := ""
  flags : JoiFlags := {}
  rules : List (JoiRuleF α) := []
  keys : List (String × α) := []
  items : List α := []
  ordered : List α := []
  «matches» : List (JoiMatchF α) := []
  allow : List JVal := []

/-- A Joi description object: the recursive closure of `JoiDescF`. -/
inductive JoiDescription where
  | mk (d : JoiDescF JoiDescription)

/-- Field record of a description. -/
def JoiDescription.d : JoiDescription → JoiDescF JoiDescription
  | .mk d => d

@[simp] theorem JoiDescription.d_mk (d : JoiDescF JoiDescription) :
    (JoiDescription.mk d).d = d := rfl

def JoiDescription.type (x : JoiDescription) : String := x.d.type
def JoiDescription.flags (x : JoiDescription) : JoiFlags := x.d.flags
def JoiDescription.rules (x : JoiDescription) : List (JoiRuleF JoiDescription) := x.d.rules
def JoiDescription.keys (x : JoiDescription) : List (String × JoiDescription) := x.d.keys
def JoiDescription.items (x : JoiDescription) : List JoiDescription := x.d.items
def JoiDescription.ordered (x : JoiDescription) : List JoiDescription := x.d.ordered
def JoiDescription.«matches» (x : JoiDescription) : List (JoiMatchF JoiDescription) := x.d.«matches»
def JoiDescription.allow (x : JoiDescription) : List JVal := x.d.allow

/-- Flag characters accepted after the closing slash by the pattern-rule
de-quoting regex of joi.ts (`[gimsuy]`). -/
def regexFlagChars : List Char := ['g', 'i', 'm', 's', 'u', 'y']

/-- Embeds the pattern de-quoting of convertString in joi.ts: the regex
`^\/(.*)\/[gimsuy]*$` applied to a serialized RegExp string, returning the
captured pattern on a match and the input unchanged otherwise.  The greedy
capture takes everything between the leading slash and the last slash
whose suffix consists only of flag characters. -/
def dequoteJoiRegex (s : String) : String :=
  let cs := s.toList
  match cs with
  | '/' :: _ =>
      let rev := cs.reverse
      let flags := rev.takeWhile (fun c => regexFlagChars.contains c)
      let rest := rev.drop flags.length
      match rest with
      | '/' :: restTail =>
          match restTail.getLast? with
          | some '/' => String.mk restTail.dropLast.reverse
          | _ => s
      | _ => s
  | _ => s

/-- One iteration of the rule loop of `convertString` in joi.ts.  Arms not
assigning anything in the source (creditCard, case, trim, unknown names)
fall through unchanged. -/
def applyStringRule (result : SchemaF SchemaObject)
    (rule : JoiRuleF JoiDescription) : SchemaF SchemaObject :=
  match rule.name with
  | "min" => { result with minLength := rule.argLimit }
  | "max" => { result with maxLength := rule.argLimit }
  | "length" =>
      { result with minLength := rule.argLimit, maxLength := rule.argLimit }
  | "email" => { result with format := some "email" }
  | "uri" => { result with format := some "uri" }
  | "guid" | "uuid" => { result with format := some "uuid" }
  | "isoDate" => { result with format := some "date-time" }
  | "isoDuration" => { result with format := some "duration" }
  | "hostname" => { result with format := some "hostname" }
  | "ip" =>
      match rule.argVersion with
      | some versions =>
          if versions.contains "ipv6" && !(versions.contains "ipv4") then
            { result with format := some "ipv6" }
          else if versions.contains "ipv4" && !(versions.contains "ipv6") then
            { result with format := some "ipv4" }
          else result
      | none => result
  | "pattern" | "regex" =>
      match rule.argRegex with
      | some (.regexp src) => { result with pattern := some src }
      | some (.str s) => { result with pattern := some (dequoteJoiRegex s) }
      | none => result
  | "alphanum" => { result with pattern := some "^[a-zA-Z0-9]*$" }
  | "token" => { result with pattern := some "^[a-zA-Z0-9_]*$" }
  | "hex" => { result with pattern := some "^[a-fA-F0-9]*$" }
  | "base64" => { result with contentEncoding := some "base64" }
  | "dataUri" => { result with pattern := some "^data:.*;base64," }
  | _ => result

/-- Embeds `convertString` of joi.ts: fold the rule list over an initial
`{type: "string"}` node. -/
def convertString (desc : JoiDescription) (_opts : ConvOptions) : SchemaObject :=
  .mk (desc.rules.foldl applyStringRule { type := some (.single "string") })

/-- One iteration of the rule loop of `convertNumber` in joi.ts. -/
def applyNumberRule (acc : SchemaF SchemaObject × Bool)
    (rule : JoiRuleF JoiDescription) : SchemaF SchemaObject × Bool :=
  let (result, isInteger) := acc
  match rule.name with
  | "integer" => (result, true)
  | "min" => ({ result with minimum := rule.argLimit }, isInteger)
  | "max" => ({ result with maximum := rule.argLimit }, isInteger)
  | "greater" => ({ result with exclusiveMinimum := rule.argLimit }, isInteger)
  | "less" => ({ result with exclusiveMaximum := rule.argLimit }, isInteger)
  | "multiple" => ({ result with multipleOf := rule.argBase }, isInteger)
  | _ => (result, isInteger)

/-- Embeds `convertNumber` of joi.ts: fold the rule list tracking
`isInteger`, then set `type` last as the source does. -/
def convertNumber (desc : JoiDescription) : SchemaObject :=
  let step := desc.rules.foldl applyNumberRule ({}, false)
  .mk { step.1 with
        type := some (.single (if step.2 then "integer" else "number")) }

/-- Embeds `convertBoolean` of joi.ts. -/
def convertBoolean (_desc : JoiDescription) : SchemaObject :=
  .mk { type := some (.single "boolean") }

end Joi

namespace Joi

/-- One iteration of the length/uniqueness rule loop of `convertArray` in
joi.ts. -/
def applyArrayRule (result : SchemaF SchemaObject)
    (rule : JoiRuleF JoiDescription) : SchemaF SchemaObject :=
  match rule.name with
  | "min" => { result with minItems := rule.argLimit }
  | "max" => { result with maxItems := rule.argLimit }
  | "length" =>
      { result with minItems := rule.argLimit, maxItems := rule.argLimit }
  | "unique" => { result with uniqueItems := some true }
  | _ => result

/-- Embeds the metadata collection at the top of `convertJoiDescription`
in joi.ts: description from `flags.description` (JavaScript truthiness)
and default from `flags.default` (defined-ness), subject to the options. -/
def joiMetadata (desc : JoiDescription) (opts : ConvOptions) : SchemaF SchemaObject :=
  let result : SchemaF SchemaObject := {}
  let result :=
    if opts.includeDescriptions && truthyStr desc.flags.description then
      { result with description := desc.flags.description }
    else result
  if opts.includeDefaults && desc.flags.default.isSome then
    { result with default := desc.flags.default }
  else result

/-- Embeds the nullable fold-in at the end of `convertJoiDescription` in
joi.ts (lines 263-282): merge the metadata with the dispatched node, then,
when `allow` contains null and the node is not an enum, widen a scalar
`type` to a type set, append "null" to a type set lacking it, or wrap a
typeless non-empty node in `anyOf` — returning a typeless empty node
unchanged. -/
def joiApplyNullable (result : SchemaF SchemaObject) (typeSchema : SchemaObject)
    (hasNullAllow onlyFlag : Bool) : SchemaObject :=
  let combined := result.merge typeSchema.f
  if hasNullAllow && !onlyFlag then
    match combined.type with
    | some (.single t) =>
        .mk { combined with type := some (.multi [t, "null"]) }
    | some (.multi ts) =>
        if !ts.contains "null" then
          .mk { combined with type := some (.multi (ts ++ ["null"])) }
        else .mk combined
    | none =>
        if !combined.isEmptyF then
          .mk { anyOf := some [.mk combined,
                               .mk { type := some (.single "null") }] }
        else .mk combined
  else .mk combined

/-- Fuel-indexed driver of the Dialect-B conversion, the exact analogue of
`Zod.convertZodTypeFuel`: the wrapper `convertJoiDescription` below
instantiates the fuel with `maxDepth + 1 - depth`, making the fuel-0 case
coincide with the source depth guard.  The arms for object, array and
alternatives inline the bodies of the source helpers `convertObject`,
`convertArray` and `convertAlternatives` (stated separately below with
bridge lemmas). -/
def convertJoiDescriptionFuel : Nat → JoiDescription → ConvOptions → Nat → SchemaObject
  | 0, _, _, _ => emptyNode
  | fuel + 1, desc, opts, depth =>
    if depth > opts.maxDepth then
      emptyNode
    else
      let result : SchemaF SchemaObject := joiMetadata desc opts
      if desc.flags.only = some true && !desc.allow.isEmpty then
        let enumValues := desc.allow.filter (fun v => v != JVal.null)
        let hasNull := desc.allow.contains JVal.null
        if hasNull then
          .mk { result with enum := some desc.allow }
        else
          .mk { result with enum := some enumValues }
      else
        let typeSchema : SchemaObject :=
          match desc.type with
          | "string" => convertString desc opts
          | "number" => convertNumber desc
          | "boolean" => convertBoolean desc
          | "object" =>
              let properties : List (String × SchemaObject) :=
                desc.keys.map (fun kv =>
                  (kv.1, convertJoiDescriptionFuel fuel kv.2 opts (depth + 1)))
              let required : List String :=
                (desc.keys.filter (fun kv =>
                  kv.2.flags.presence == some "required")).map (fun kv => kv.1)
              let allowUnknown := desc.flags.allowUnknown <|> desc.flags.unknown
              let patternRules := desc.rules.filter (fun r => r.name == "pattern")
              let additionalField : Option (BoolOr SchemaObject) :=
                match patternRules.head? with
                | some r =>
                    match r.argValue with
                    | some valueDesc =>
                        some (.schema (convertJoiDescriptionFuel fuel valueDesc opts (depth + 1)))
                    | none =>
                        if allowUnknown = some false then some (.bool false) else none
                | none =>
                    if allowUnknown = some false then some (.bool false) else none
              .mk { type := some (.single "object"),
                    properties := if properties.isEmpty then none else some properties,
                    required := if required.isEmpty then none else some required,
                    additionalProperties := additionalField }
          | "array" =>
              if !desc.ordered.isEmpty then
                .mk { type := some (.single "array"),
                      prefixItems := some (desc.ordered.map (fun item =>
                        convertJoiDescriptionFuel fuel item opts (depth + 1))),
                      items := some (.bool false),
                      minItems := some (desc.ordered.length : Int),
                      maxItems := some (desc.ordered.length : Int) }
              else
                let arrResult : SchemaF SchemaObject :=
                  { type := some (.single "array") }
                let arrResult :=
                  match desc.items with
                  | [] => arrResult
                  | [single] =>
                      { arrResult with
                        items := some (.schema
                          (convertJoiDescriptionFuel fuel single opts (depth + 1))) }
                  | multiple =>
                      { arrResult with
                        items := some (.schema (SchemaObject.mk
                          { anyOf := some (multiple.map (fun item =>
                              convertJoiDescriptionFuel fuel item opts (depth + 1))) })) }
                let arrResult := desc.rules.foldl applyArrayRule arrResult
                .mk arrResult
          | "alternatives" =>
              let schemas : List SchemaObject :=
                desc.matches.filterMap (fun m =>
                  m.schema.map (fun s =>
                    convertJoiDescriptionFuel fuel s opts (depth + 1)))
              match schemas with
              | [] => emptyNode
              | [single] => single
              | multiple => .mk { anyOf := some multiple }
          | "date" =>
              .mk { type := some (.single "string"), format := some "date-time" }
          | "binary" =>
              .mk { type := some (.single "string"),
                    contentEncoding := some "base64" }
          | _ => emptyNode
        joiApplyNullable result typeSchema (desc.allow.contains JVal.null)
          (decide (desc.flags.only = some true))

/-- Embeds `convertJoiDescription` of joi.ts, through the fuel-indexed
driver at fuel `maxDepth + 1 - depth` (see `Zod.convertZodType`). -/
def convertJoiDescription (desc : JoiDescription) (opts : ConvOptions) (depth : Nat) :
    SchemaObject :=
  convertJoiDescriptionFuel (opts.maxDepth + 1 - depth) desc opts depth

/-- Embeds `convertObject` of joi.ts, with the key loop rendered as a map
(properties) and a filter (required). -/
def convertObject (desc : JoiDescription) (opts : ConvOptions) (depth : Nat) :
    SchemaObject :=
  let properties : List (String × SchemaObject) :=
    desc.keys.map (fun kv =>
      (kv.1, convertJoiDescription kv.2 opts (depth + 1)))
  let required : List String :=
    (desc.keys.filter (fun kv =>
      kv.2.flags.presence == some "required")).map (fun kv => kv.1)
  let allowUnknown := desc.flags.allowUnknown <|> desc.flags.unknown
  let patternRules := desc.rules.filter (fun r => r.name == "pattern")
  let additionalField : Option (BoolOr SchemaObject) :=
    match patternRules.head? with
    | some r =>
        match r.argValue with
        | some valueDesc =>
            some (.schema (convertJoiDescription valueDesc opts (depth + 1)))
        | none =>
            if allowUnknown = some false then some (.bool false) else none
    | none =>
        if allowUnknown = some false then some (.bool false) else none
  .mk { type := some (.single "object"),
        properties := if properties.isEmpty then none else some properties,
        required := if required.isEmpty then none else some required,
        additionalProperties := additionalField }

/-- Embeds `convertArray` of joi.ts: the ordered-tuple branch returns
early; otherwise the items branch and the length rules apply. -/
def convertArray (desc : JoiDescription) (opts : ConvOptions) (depth : Nat) :
    SchemaObject :=
  if !desc.ordered.isEmpty then
    .mk { type := some (.single "array"),
          prefixItems := some (desc.ordered.map (fun item =>
            convertJoiDescription item opts (depth + 1))),
          items := some (.bool false),
          minItems := some (desc.ordered.length : Int),
          maxItems := some (desc.ordered.length : Int) }
  else
    let result : SchemaF SchemaObject := { type := some (.single "array") }
    let result :=
      match desc.items with
      | [] => result
      | [single] =>
          { result with
            items := some (.schema (convertJoiDescription single opts (depth + 1))) }
      | multiple =>
          { result with
            items := some (.schema (SchemaObject.mk
              { anyOf := some (multiple.map (fun item =>
                  convertJoiDescription item opts (depth + 1))) })) }
    let result := desc.rules.foldl applyArrayRule result
    .mk result

/-- Embeds `convertAlternatives` of joi.ts: keep only matches that carry a
plain schema, then return `{}`, the single schema, or an `anyOf`. -/
def convertAlternatives (desc : JoiDescription) (opts : ConvOptions) (depth : Nat) :
    SchemaObject :=
  let schemas : List SchemaObject :=
    desc.matches.filterMap (fun m =>
      m.schema.map (fun s => convertJoiDescription s opts (depth + 1)))
  match schemas with
  | [] => emptyNode
  | [single] => single
  | multiple => .mk { anyOf := some multiple }

/-- Embeds `joiToOpenAPI` of joi.ts: obtain the description of the schema
value and convert it at depth 0 (`options` is the filled-in record). -/
def joiToOpenAPI (description : JoiDescription) (options : ConvOptions) :
    SchemaObject :=
  convertJoiDescription description options 0

/-- Embeds `joiDescriptionToOpenAPI` of joi.ts: convert an already-obtained
description object at depth 0. -/
def joiDescriptionToOpenAPI (description : JoiDescription) (options : ConvOptions) :
    SchemaObject :=
  convertJoiDescription description options 0

end Joi

-- ─── Reference resolver, from src/builder/_zodResolver.ts ────────────────────

/-- A schema-like input to the resolver.  The source classifies a runtime
value by duck-typing: a string, a value satisfying `isZodSchema` (object
with `_def` and a callable `parse`), a value satisfying `isJoiSchema`
(callable `describe`, modelled here by the description that call returns),
or anything else (treated as an already-canonical node).  The model makes
that classification a discriminated union, so each constructor stands for
the set of runtime values its duck-type test accepts. -/
inductive SchemaInput where
  | str (s : String)
  | zod (schema : Zod.ZodSchema)
  | joi (description : Joi.JoiDescription)
  | plain (node : SchemaObject)

/-- Embeds `resolveSchemaInput` of _zodResolver.ts: a string becomes a
`$ref` node, a Zod value is converted by `zodToOpenAPI`, a Joi value by
`joiToOpenAPI` (both with default options), and anything else is returned
unchanged. -/
def resolveSchemaInput : SchemaInput → SchemaObject
  | .str s => .mk { ref := some s }
  | .zod schema => Zod.zodToOpenAPI schema {}
  | .joi description => Joi.joiToOpenAPI description {}
  | .plain node => node

-- ─── Spec-side strip functions (for the options-toggle claim) ────────────────

/-- Stated from the spec: the node obtained by removing every `default`
field from every node of the tree (descending into every node-valued
field). -/
def stripDefaults (s : SchemaObject) : SchemaObject :=
  match s with
  | .mk f =>
    .mk { f with
      default := none,
      anyOf := match h : f.anyOf with
        | none => none
        | some l => some (l.attach.map (fun (x : { y // y ∈ l }) =>
            stripDefaults x.1)),
      allOf := match h : f.allOf with
        | none => none
        | some l => some (l.attach.map (fun (x : { y // y ∈ l }) =>
            stripDefaults x.1)),
      not := match h : f.not with
        | none => none
        | some x => some (stripDefaults x),
      properties := match h : f.properties with
        | none => none
        | some l => some (l.attach.map (fun (x : { y // y ∈ l }) =>
            match x with
            | ⟨(k, v), hmem⟩ => (k, stripDefaults v))),
      additionalProperties := match h : f.additionalProperties with
        | none => none
        | some (.bool b) => some (.bool b)
        | some (.schema x) => some (.schema (stripDefaults x)),
      items := match h : f.items with
        | none => none
        | some (.bool b) => some (.bool b)
        | some (.schema x) => some (.schema (stripDefaults x)),
      prefixItems := match h : f.prefixItems with
        | none => none
        | some l => some (l.attach.map (fun (x : { y // y ∈ l }) =>
            stripDefaults x.1)) }
termination_by sizeOf s
decreasing_by
  all_goals first
    | (have h1 := List.sizeOf_lt_of_mem x.2; cases f; simp_all; omega)
    | (have h1 := List.sizeOf_lt_of_mem hmem; cases f; simp_all; omega)
    | (cases f; simp_all; omega)

/-- Stated from the spec: the node obtained by removing every `description`
field from every node of the tree. -/
def stripDescriptions (s : SchemaObject) : SchemaObject :=
  match s with
  | .mk f =>
    .mk { f with
      description := none,
      anyOf := match h : f.anyOf with
        | none => none
        | some l => some (l.attach.map (fun (x : { y // y ∈ l }) =>
            stripDescriptions x.1)),
      allOf := match h : f.allOf with
        | none => none
        | some l => some (l.attach.map (fun (x : { y // y ∈ l }) =>
            stripDescriptions x.1)),
      not := match h : f.not with
        | none => none
        | some x => some (stripDescriptions x),
      properties := match h : f.properties with
        | none => none
        | some l => some (l.attach.map (fun (x : { y // y ∈ l }) =>
            match x with
            | ⟨(k, v), hmem⟩ => (k, stripDescriptions v))),
      additionalProperties := match h : f.additionalProperties with
        | none => none
        | some (.bool b) => some (.bool b)
        | some (.schema x) => some (.schema (stripDescriptions x)),
      items := match h : f.items with
        | none => none
        | some (.bool b) => some (.bool b)
        | some (.schema x) => some (.schema (stripDescriptions x)),
      prefixItems := match h : f.prefixItems with
        | none => none
        | some l => some (l.attach.map (fun (x : { y // y ∈ l }) =>
            stripDescriptions x.1)) }
termination_by sizeOf s
decreasing_by
  all_goals first
    | (have h1 := List.sizeOf_lt_of_mem x.2; cases f; simp_all; omega)
    | (have h1 := List.sizeOf_lt_of_mem hmem; cases f; simp_all; omega)
    | (cases f; simp_all; omega)

-- ─── Helper lemmas ───────────────────────────────────────────────────────────

/-- Spreading something over the empty record is the identity. -/
@[simp] theorem SchemaF.merge_emptyF (b : SchemaF SchemaObject) :
    SchemaF.merge {} b = b := by
  cases b; simp [SchemaF.merge]

/-- Spreading a description-only record: every field of the right operand
wins except that an absent description falls back to the left one. -/
theorem SchemaF.merge_descF (d : Option String) (b : SchemaF SchemaObject) :
    SchemaF.merge { description := d } b =
      { b with description := b.description <|> d } := by
  cases b; simp [SchemaF.merge]

/-- Rewrites an attach-map over pairs to a plain map. -/
theorem attach_map_pair (l : List (String × SchemaObject)) (g : SchemaObject → SchemaObject) :
    l.attach.map (fun (x : { y // y ∈ l }) =>
      match x with
      | ⟨(k, v), _⟩ => (k, g v)) = l.map (fun kv => (kv.1, g kv.2)) :=
  List.attach_map_val l (fun kv => (kv.1, g kv.2))

/-- Closed form of `stripDefaults` on a node record. -/
theorem stripDefaults_mk (f : SchemaF SchemaObject) :
    stripDefaults (.mk f) =
    .mk { f with
      default := none,
      anyOf := f.anyOf.map (List.map stripDefaults),
      allOf := f.allOf.map (List.map stripDefaults),
      not := f.not.map stripDefaults,
      properties := f.properties.map (List.map (fun kv => (kv.1, stripDefaults kv.2))),
      additionalProperties := f.additionalProperties.map (fun b =>
        match b with
        | .bool b => BoolOr.bool b
        | .schema x => .schema (stripDefaults x)),
      items := f.items.map (fun b =>
        match b with
        | .bool b => BoolOr.bool b
        | .schema x => .schema (stripDefaults x)),
      prefixItems := f.prefixItems.map (List.map stripDefaults) } := by
  rw [stripDefaults.eq_def]
  simp only [SchemaObject.mk.injEq, SchemaF.mk.injEq]
  repeat' apply And.intro
  all_goals try trivial
  all_goals split
  all_goals simp_all [List.attach_map_val, attach_map_pair]

/-- Closed form of `stripDescriptions` on a node record. -/
theorem stripDescriptions_mk (f : SchemaF SchemaObject) :
    stripDescriptions (.mk f) =
    .mk { f with
      description := none,
      anyOf := f.anyOf.map (List.map stripDescriptions),
      allOf := f.allOf.map (List.map stripDescriptions),
      not := f.not.map stripDescriptions,
      properties := f.properties.map (List.map (fun kv => (kv.1, stripDescriptions kv.2))),
      additionalProperties := f.additionalProperties.map (fun b =>
        match b with
        | .bool b => BoolOr.bool b
        | .schema x => .schema (stripDescriptions x)),
      items := f.items.map (fun b =>
        match b with
        | .bool b => BoolOr.bool b
        | .schema x => .schema (stripDescriptions x)),
      prefixItems := f.prefixItems.map (List.map stripDescriptions) } := by
  rw [stripDescriptions.eq_def]
  simp only [SchemaObject.mk.injEq, SchemaF.mk.injEq]
  repeat' apply And.intro
  all_goals try trivial
  all_goals split
  all_goals simp_all [List.attach_map_val, attach_map_pair]

/-- Stripping the empty node gives the empty node. -/
@[simp] theorem stripDefaults_emptyNode : stripDefaults emptyNode = emptyNode := by
  rw [emptyNode, stripDefaults_mk]; rfl

@[simp] theorem stripDescriptions_emptyNode :
    stripDescriptions emptyNode = emptyNode := by
  rw [emptyNode, stripDescriptions_mk]; rfl

-- ─── Claim theorems ──────────────────────────────────────────────────────────

/-- C2: for every input value, every options record, and every depth
strictly greater than `maxDepth`, both converters return the empty
permissive node `{}` immediately, without inspecting the input (the
statement quantifies over arbitrary inputs). -/
theorem claim_C2_depth_guard (zs : Zod.ZodSchema) (jd : Joi.JoiDescription)
    (opts : ConvOptions) (depth : Nat) (h : depth > opts.maxDepth) :
    Zod.convertZodType zs opts depth = emptyNode ∧
    Joi.convertJoiDescription jd opts depth = emptyNode := by
  unfold Zod.convertZodType Joi.convertJoiDescription
  rw [show opts.maxDepth + 1 - depth = 0 by omega]
  exact ⟨rfl, rfl⟩

/-- Witness for C2 at depth 21 against the default maxDepth of 20. -/
theorem claim_C2_depth_guard_witness :
    21 > ({} : ConvOptions).maxDepth ∧
    Zod.convertZodType (.string none []) {} 21 = emptyNode ∧
    Joi.convertJoiDescription (.mk {}) {} 21 = emptyNode :=
  ⟨by decide, claim_C2_depth_guard (.string none []) (.mk {}) {} 21 (by decide)⟩

/-- C9: the reference resolver turns a string into exactly a `$ref` node,
and returns any input that is neither a string nor duck-typed as a Zod or
Joi schema unchanged. -/
theorem claim_C9_resolver (s : String) (node : SchemaObject) :
    resolveSchemaInput (.str s) = .mk { ref := some s } ∧
    resolveSchemaInput (.plain node) = node :=
  ⟨rfl, rfl⟩

/-- C5: a tuple/ordered schema with n fixed slots and no rest element
converts to `prefixItems` of the n converted slots, `items: false`, and
`minItems = maxItems = n`; with a rest element (Dialect-A only), `items`
is the converted rest schema, `minItems = n`, and `maxItems` is absent.
The Dialect-B part is stated for a non-empty ordered list, since the
source takes the ordered branch only when `ordered.length > 0`. -/
theorem claim_C5_tuple (d : Option String) (items : List Zod.ZodSchema)
    (r : Zod.ZodSchema) (dd : Joi.JoiDescription) (opts : ConvOptions) (depth : Nat) :
    (Zod.convertZodTuple (.tuple d items none) opts depth =
      .mk { type := some (.single "array"),
            prefixItems := some (items.map (fun item =>
              Zod.convertZodType item opts (depth + 1))),
            items := some (.bool false),
            minItems := some (items.length : Int),
            maxItems := some (items.length : Int) }) ∧
    (Zod.convertZodTuple (.tuple d items (some r)) opts depth =
      .mk { type := some (.single "array"),
            prefixItems := some (items.map (fun item =>
              Zod.convertZodType item opts (depth + 1))),
            items := some (.schema (Zod.convertZodType r opts (depth + 1))),
            minItems := some (items.length : Int) }) ∧
    (dd.ordered ≠ [] →
      Joi.convertArray dd opts depth =
        .mk { type := some (.single "array"),
              prefixItems := some (dd.ordered.map (fun item =>
                Joi.convertJoiDescription item opts (depth + 1))),
              items := some (.bool false),
              minItems := some (dd.ordered.length : Int),
              maxItems := some (dd.ordered.length : Int) }) := by
  refine ⟨rfl, rfl, fun h => ?_⟩
  unfold Joi.convertArray
  have he : dd.ordered.isEmpty = false := by
    cases hx : dd.ordered with
    | nil => exact absurd hx h
    | cons a l => simp [hx]
  simp [he]

/-- Concrete three-slot ordered description used by the C5 witness. -/
def joiOrderedThree : Joi.JoiDescription :=
  .mk { type := "array", ordered := [.mk { type := "string" }, .mk { type := "number" }, .mk { type := "boolean" }] }

/-- Witness for C5: a three-slot Dialect-B ordered tuple. -/
theorem claim_C5_tuple_witness :
    joiOrderedThree.ordered ≠ [] ∧
    Joi.convertArray joiOrderedThree {} 0 =
      .mk { type := some (.single "array"),
            prefixItems := some
              [.mk { type := some (.single "string") },
               .mk { type := some (.single "number") },
               .mk { type := some (.single "boolean") }],
            items := some (.bool false),
            minItems := some 3, maxItems := some 3 } := by
  refine ⟨by simp [joiOrderedThree, Joi.JoiDescription.ordered, Joi.JoiDescription.d], ?_⟩
  have h := (claim_C5_tuple none [] (.string none []) joiOrderedThree {} 0).2.2
    (by simp [joiOrderedThree, Joi.JoiDescription.ordered, Joi.JoiDescription.d])
  rw [h]
  rfl

-- ─── C10: pattern overwriting in the Dialect-A string converter ──────────────

namespace Zod

/-- The pattern a single string check writes, if any: exactly the four
pattern-producing arms of `applyStringCheck`. -/
def patternOfCheck : ZodStringCheck → Option String
  | .regex src => some src
  | .startsWith v => some ("^" ++ escapeRegex v)
  | .endsWith v => some (escapeRegex v ++ "$")
  | .includes v => some (escapeRegex v)
  | _ => none

/-- A check that produces no pattern leaves the `pattern` field unchanged. -/
theorem applyStringCheck_pattern_none (r : SchemaF SchemaObject)
    (c : ZodStringCheck) (h : patternOfCheck c = none) :
    (applyStringCheck r c).pattern = r.pattern := by
  cases c <;> simp_all [patternOfCheck, applyStringCheck]

/-- A pattern-producing check overwrites the `pattern` field with its own
pattern. -/
theorem applyStringCheck_pattern_some (r : SchemaF SchemaObject)
    (c : ZodStringCheck) (p : String) (h : patternOfCheck c = some p) :
    (applyStringCheck r c).pattern = some p := by
  cases c <;> simp_all [patternOfCheck, applyStringCheck]

/-- Folding checks that produce no pattern never changes the `pattern`. -/
theorem foldl_pattern_invariant (post : List ZodStringCheck)
    (hpost : ∀ c2 ∈ post, patternOfCheck c2 = none) (r : SchemaF SchemaObject) :
    (post.foldl applyStringCheck r).pattern = r.pattern := by
  induction post generalizing r with
  | nil => rfl
  | cons c cs ih =>
      rw [List.foldl_cons, ih (fun c2 hc2 => hpost c2 (List.mem_cons_of_mem c hc2)),
        applyStringCheck_pattern_none r c (hpost c (List.mem_cons_self c cs))]

end Zod

/-- C10: in `convertZodString`, the output `pattern` comes solely from the
last pattern-producing check (regex, startsWith, endsWith or includes) of
the ordered check list; the patterns of all earlier checks are overwritten
and never combined. -/
theorem claim_C10_pattern_last_wins (pre post : List Zod.ZodStringCheck)
    (c : Zod.ZodStringCheck) (p : String) (opts : ConvOptions)
    (hc : Zod.patternOfCheck c = some p)
    (hpost : ∀ c2 ∈ post, Zod.patternOfCheck c2 = none) :
    (Zod.convertZodString (pre ++ c :: post) opts).f.pattern = some p := by
  unfold Zod.convertZodString
  rw [SchemaObject.f_mk, List.foldl_append, List.foldl_cons,
    Zod.foldl_pattern_invariant post hpost,
    Zod.applyStringCheck_pattern_some _ c p hc]

/-- Witness for C10: a regex check followed by a startsWith check; the
output pattern is the startsWith-derived one, the regex is gone. -/
theorem claim_C10_pattern_last_wins_witness :
    Zod.patternOfCheck (Zod.ZodStringCheck.startsWith "ab") = some "^ab" ∧
    (∀ c2 ∈ ([] : List Zod.ZodStringCheck), Zod.patternOfCheck c2 = none) ∧
    (Zod.convertZodString [.regex "x+", .startsWith "ab"] {}).f.pattern = some "^ab" := by
  refine ⟨by decide, by simp, ?_⟩
  exact claim_C10_pattern_last_wins [.regex "x+"] [] (.startsWith "ab") "^ab" {}
    (by decide) (by simp)

-- ─── C1: required-field derivation ───────────────────────────────────────────

/-- Membership in the key list of filtered entries. -/
theorem mem_map_fst_filter {α : Type} (k : String) (shape : List (String × α))
    (p : String × α → Bool) :
    k ∈ (shape.filter p).map (fun kv => kv.1) ↔
      ∃ s, (k, s) ∈ shape ∧ p (k, s) = true := by
  simp only [List.mem_map, List.mem_filter]
  constructor
  · rintro ⟨⟨k2, s⟩, ⟨hmem, hp⟩, rfl⟩
    exact ⟨s, hmem, hp⟩
  · rintro ⟨s, hmem, hp⟩
    exact ⟨(k, s), ⟨hmem, hp⟩, rfl⟩

/-- The required list an object conversion stores, as a membership test. -/
theorem required_getD_mem (k : String) (req : List String) :
    k ∈ (if req.isEmpty then none else some req).getD [] ↔ k ∈ req := by
  split
  · next h =>
      rw [List.isEmpty_iff] at h
      simp [h]
  · rfl

/-- C1: a property name is in the `required` list of a converted object
schema iff its source field was non-optional by the dialect's own
semantics: not wrapped in ZodOptional or ZodDefault for Dialect-A, and
carrying `flags.presence = "required"` for Dialect-B. -/
theorem claim_C1_required_iff (k : String) (d : Option String)
    (shape : List (String × Zod.ZodSchema)) (uk : Option String)
    (ca : Option Zod.ZodSchema) (dd : Joi.JoiDescription)
    (opts : ConvOptions) (depth : Nat) :
    (k ∈ ((Zod.convertZodObject (.object d shape uk ca) opts depth).f.required.getD []) ↔
      ∃ s, (k, s) ∈ shape ∧ Zod.isZodOptional s = false) ∧
    (k ∈ ((Joi.convertObject dd opts depth).f.required.getD []) ↔
      ∃ fd, (k, fd) ∈ dd.keys ∧ fd.flags.presence = some "required") := by
  constructor
  · unfold Zod.convertZodObject
    dsimp only [SchemaObject.f_mk]
    rw [required_getD_mem, mem_map_fst_filter]
    constructor
    · rintro ⟨s, hmem, hp⟩
      exact ⟨s, hmem, by simpa [Bool.not_eq_true'] using hp⟩
    · rintro ⟨s, hmem, hp⟩
      exact ⟨s, hmem, by simpa [Bool.not_eq_true'] using hp⟩
  · unfold Joi.convertObject
    dsimp only [SchemaObject.f_mk]
    rw [required_getD_mem, mem_map_fst_filter]
    constructor
    · rintro ⟨fd, hmem, hp⟩
      exact ⟨fd, hmem, by simpa using hp⟩
    · rintro ⟨fd, hmem, hp⟩
      exact ⟨fd, hmem, by simpa using hp⟩

-- ─── C3: Dialect-A nullable handling ─────────────────────────────────────────

/-- C3: converting a ZodNullable (stated for a wrapper carrying no
description of its own, so the output is exactly the nullable rule's
result): if the converted inner result has a single scalar `type`, the
output is the inner result with `type` replaced by the two-element set
`[innerType, "null"]`; otherwise it is `anyOf: [inner, {type: "null"}]`. -/
theorem claim_C3_nullable (innerS : Zod.ZodSchema) (opts : ConvOptions)
    (depth : Nat) (hd : depth ≤ opts.maxDepth) :
    (∀ t, (Zod.convertZodType innerS opts (depth + 1)).f.type = some (.single t) →
      Zod.convertZodType (.nullable none innerS) opts depth =
        .mk { (Zod.convertZodType innerS opts (depth + 1)).f with
              type := some (.multi [t, "null"]) }) ∧
    ((∀ t, (Zod.convertZodType innerS opts (depth + 1)).f.type ≠ some (.single t)) →
      Zod.convertZodType (.nullable none innerS) opts depth =
        .mk { anyOf := some [Zod.convertZodType innerS opts (depth + 1),
                             .mk { type := some (.single "null") }] }) := by
  unfold Zod.convertZodType
  rw [show opts.maxDepth + 1 - depth = (opts.maxDepth - depth) + 1 by omega,
      show opts.maxDepth + 1 - (depth + 1) = opts.maxDepth - depth by omega]
  simp only [Zod.convertZodTypeFuel]
  rw [if_neg (by omega : ¬ depth > opts.maxDepth)]
  rw [show Zod.zodMetadata (.nullable none innerS) opts = {} by
    simp [Zod.zodMetadata, Zod.ZodSchema.description, truthyStr]]
  simp only [SchemaF.merge_emptyF]
  constructor
  · intro t ht
    rw [ht]
  · intro hne
    cases hx : (Zod.convertZodTypeFuel (opts.maxDepth - depth) innerS opts (depth + 1)).f.type with
    | none => rfl
    | some tf =>
        cases tf with
        | single t => exact absurd hx (hne t)
        | multi ts => rfl

/-- Witness for C3: a nullable string takes the type-set branch, a
nullable literal (whose conversion has no `type`) takes the anyOf branch. -/
theorem claim_C3_nullable_witness :
    (0 ≤ ({} : ConvOptions).maxDepth ∧
      (Zod.convertZodType (.string none []) {} 1).f.type = some (.single "string") ∧
      Zod.convertZodType (.nullable none (.string none [])) {} 0 =
        .mk { type := some (.multi ["string", "null"]) }) ∧
    ((∀ t, (Zod.convertZodType (.literal none (.int 1)) {} 1).f.type ≠ some (.single t)) ∧
      Zod.convertZodType (.nullable none (.literal none (.int 1))) {} 0 =
        .mk { anyOf := some [.mk { const := some (.int 1) },
                             .mk { type := some (.single "null") }] }) := by
  refine ⟨⟨by decide, rfl, ?_⟩, ⟨fun t hx => Option.noConfusion hx, ?_⟩⟩
  · have h := (claim_C3_nullable (.string none []) {} 0 (by decide)).1 "string" rfl
    rw [h]
    rfl
  · have h := (claim_C3_nullable (.literal none (.int 1)) {} 0 (by decide)).2
      (fun t hx => Option.noConfusion hx)
    rw [h]
    rfl

-- ─── C6: vacuous nullable skip in Dialect-B ──────────────────────────────────

namespace Joi

@[simp] theorem type_mk (x : JoiDescF JoiDescription) :
    (JoiDescription.mk x).type = x.type := rfl
@[simp] theorem flags_mk (x : JoiDescF JoiDescription) :
    (JoiDescription.mk x).flags = x.flags := rfl
@[simp] theorem rules_mk (x : JoiDescF JoiDescription) :
    (JoiDescription.mk x).rules = x.rules := rfl
@[simp] theorem keys_mk (x : JoiDescF JoiDescription) :
    (JoiDescription.mk x).keys = x.keys := rfl
@[simp] theorem items_mk (x : JoiDescF JoiDescription) :
    (JoiDescription.mk x).items = x.items := rfl
@[simp] theorem ordered_mk (x : JoiDescF JoiDescription) :
    (JoiDescription.mk x).ordered = x.ordered := rfl
@[simp] theorem matches_mk (x : JoiDescF JoiDescription) :
    (JoiDescription.mk x).matches = x.«matches» := rfl
@[simp] theorem allow_mk (x : JoiDescF JoiDescription) :
    (JoiDescription.mk x).allow = x.allow := rfl

/-- The same description with its `allow` list removed (the converter
treats an absent `allow` array and an empty one identically). -/
def withoutAllow (dd : JoiDescription) : JoiDescription :=
  .mk { dd.d with allow := [] }

@[simp] theorem withoutAllow_type (dd : JoiDescription) :
    (withoutAllow dd).type = dd.type := rfl
@[simp] theorem withoutAllow_flags (dd : JoiDescription) :
    (withoutAllow dd).flags = dd.flags := rfl
@[simp] theorem withoutAllow_rules (dd : JoiDescription) :
    (withoutAllow dd).rules = dd.rules := rfl
@[simp] theorem withoutAllow_keys (dd : JoiDescription) :
    (withoutAllow dd).keys = dd.keys := rfl
@[simp] theorem withoutAllow_items (dd : JoiDescription) :
    (withoutAllow dd).items = dd.items := rfl
@[simp] theorem withoutAllow_ordered (dd : JoiDescription) :
    (withoutAllow dd).ordered = dd.ordered := rfl
@[simp] theorem withoutAllow_matches (dd : JoiDescription) :
    (withoutAllow dd).matches = dd.matches := rfl
@[simp] theorem withoutAllow_allow (dd : JoiDescription) :
    (withoutAllow dd).allow = [] := rfl

/-- None of the type-specific converters reads `allow`. -/
@[simp] theorem convertString_withoutAllow (dd : JoiDescription) (opts : ConvOptions) :
    convertString (withoutAllow dd) opts = convertString dd opts := rfl
@[simp] theorem convertNumber_withoutAllow (dd : JoiDescription) :
    convertNumber (withoutAllow dd) = convertNumber dd := rfl
@[simp] theorem convertBoolean_withoutAllow (dd : JoiDescription) :
    convertBoolean (withoutAllow dd) = convertBoolean dd := rfl
@[simp] theorem joiMetadata_withoutAllow (dd : JoiDescription) (opts : ConvOptions) :
    joiMetadata (withoutAllow dd) opts = joiMetadata dd opts := rfl

/-- Without a null allowance the nullable fold-in is the plain merge. -/
theorem joiApplyNullable_false (R : SchemaF SchemaObject) (T : SchemaObject)
    (o : Bool) : joiApplyNullable R T false o = .mk (R.merge T.f) := by
  simp [joiApplyNullable]

/-- When the merged node is the empty record, the nullable fold-in returns
the empty node regardless of the null allowance. -/
theorem joiApplyNullable_of_empty (R : SchemaF SchemaObject) (T : SchemaObject)
    (b o : Bool) (h : R.merge T.f = ({} : SchemaF SchemaObject)) :
    joiApplyNullable R T b o = emptyNode := by
  unfold joiApplyNullable
  rw [h]
  cases b <;> cases o <;> simp [emptyNode, SchemaF.isEmptyF]

/-- Fuel-level form of C6: if the conversion ignoring `allow` is empty and
the node is not an enum, the conversion with `allow` is the same empty
node (the `anyOf` wrap is skipped). -/
theorem convertJoiDescriptionFuel_vacuous (fuel : Nat) (dd : JoiDescription)
    (opts : ConvOptions) (depth : Nat)
    (honly : dd.flags.only ≠ some true)
    (hempty : convertJoiDescriptionFuel fuel (withoutAllow dd) opts depth = emptyNode) :
    convertJoiDescriptionFuel fuel dd opts depth = emptyNode := by
  cases fuel with
  | zero => rfl
  | succ f =>
      simp only [convertJoiDescriptionFuel] at hempty ⊢
      by_cases hd : depth > opts.maxDepth
      · rw [if_pos hd]
      · rw [if_neg hd] at hempty ⊢
        have honly' : (decide (dd.flags.only = some true)) = false :=
          decide_eq_false honly
        simp only [withoutAllow_type, withoutAllow_flags, withoutAllow_rules,
          withoutAllow_keys, withoutAllow_items, withoutAllow_ordered,
          withoutAllow_matches, withoutAllow_allow, convertString_withoutAllow,
          convertNumber_withoutAllow, convertBoolean_withoutAllow,
          joiMetadata_withoutAllow, honly', Bool.false_and, Bool.false_eq_true,
          if_false, List.contains_nil, List.isEmpty_nil] at hempty ⊢
        rw [joiApplyNullable_false] at hempty
        rw [emptyNode] at hempty
        injection hempty with h1
        exact joiApplyNullable_of_empty _ _ _ _ h1

end Joi

/-- C6: for a Dialect-B description whose `allow` contains null and whose
`flags.only` is not set, when the computed result (metadata and dispatch,
i.e. the conversion of the same description without its `allow` list)
reduces to the empty node, the converter returns that empty node as-is
rather than an `anyOf: [.., {type: "null"}]` wrap. -/
theorem claim_C6_vacuous_nullable (dd : Joi.JoiDescription) (opts : ConvOptions)
    (depth : Nat)
    (hnull : JVal.null ∈ dd.allow)
    (honly : dd.flags.only ≠ some true)
    (hempty : Joi.convertJoiDescription (Joi.withoutAllow dd) opts depth = emptyNode) :
    Joi.convertJoiDescription dd opts depth = emptyNode := by
  unfold Joi.convertJoiDescription at hempty ⊢
  exact Joi.convertJoiDescriptionFuel_vacuous _ dd opts depth honly hempty

/-- Concrete description for the C6 witness: type `any`, null allowed, no
metadata. -/
def joiVacuousExample : Joi.JoiDescription :=
  .mk { type := "any", allow := [JVal.null] }

/-- Witness for C6: the conversion of the example is `{}`, not an anyOf
wrap. -/
theorem claim_C6_vacuous_nullable_witness :
    JVal.null ∈ joiVacuousExample.allow ∧
    joiVacuousExample.flags.only ≠ some true ∧
    Joi.convertJoiDescription (Joi.withoutAllow joiVacuousExample) {} 0 = emptyNode ∧
    Joi.convertJoiDescription joiVacuousExample {} 0 = emptyNode := by
  refine ⟨by decide, by decide, rfl, ?_⟩
  exact claim_C6_vacuous_nullable joiVacuousExample {} 0 (by decide) (by decide) rfl

-- ─── C4: unrecognized type tags ──────────────────────────────────────────────

/-- Spreading the empty record over something is also the identity. -/
@[simp] theorem SchemaF.merge_emptyF_right (a : SchemaF SchemaObject) :
    SchemaF.merge a {} = a := by
  cases a; simp [SchemaF.merge]

/-- Concrete description for the C4 counterexample: an unrecognized type
tag combined with the tag-independent enum short-circuit. -/
def joiUnrecognizedEnumExample : Joi.JoiDescription :=
  .mk { type := "frobnicate", flags := { only := some true }, allow := [.str "a"] }

/-- Counterexample to C4 as stated: a Dialect-B description with the
unrecognized type tag "frobnicate" converts to a node carrying an `enum`
field — more than the already-collected metadata — because the enum
short-circuit runs before (and independently of) the type dispatch. -/
theorem claim_C4_counterexample :
    Joi.convertJoiDescription joiUnrecognizedEnumExample {} 0 =
      .mk { enum := some [JVal.str "a"] } ∧
    (Joi.convertJoiDescription joiUnrecognizedEnumExample {} 0).f.enum ≠ none :=
  ⟨rfl, by decide⟩

/-- C4 as amended: for an unrecognized type tag the type dispatch itself
contributes nothing and no error is raised — Dialect-A returns exactly the
collected metadata, and Dialect-B returns exactly the collected metadata
provided the tag-independent overlays do not apply (no enum short-circuit:
`flags.only` with a non-empty `allow`; no null allowance). -/
theorem claim_C4_amended (d : Option String) (tag : String)
    (dd : Joi.JoiDescription) (opts : ConvOptions) (depth : Nat)
    (hd : depth ≤ opts.maxDepth)
    (htag : dd.type ∉ ["string", "number", "boolean", "object", "array",
                       "alternatives", "date", "binary", "any"])
    (henum : ¬(dd.flags.only = some true ∧ dd.allow ≠ []))
    (hnull : JVal.null ∉ dd.allow) :
    Zod.convertZodType (.unrecognized d tag) opts depth =
      .mk (Zod.zodMetadata (.unrecognized d tag) opts) ∧
    Joi.convertJoiDescription dd opts depth = .mk (Joi.joiMetadata dd opts) := by
  constructor
  · unfold Zod.convertZodType
    rw [show opts.maxDepth + 1 - depth = (opts.maxDepth - depth) + 1 by omega]
    simp only [Zod.convertZodTypeFuel]
    rw [if_neg (by omega : ¬ depth > opts.maxDepth)]
  · unfold Joi.convertJoiDescription
    rw [show opts.maxDepth + 1 - depth = (opts.maxDepth - depth) + 1 by omega]
    simp only [Joi.convertJoiDescriptionFuel]
    rw [if_neg (by omega : ¬ depth > opts.maxDepth)]
    have hcond : (decide (dd.flags.only = some true) && !dd.allow.isEmpty) = false := by
      by_cases ho : dd.flags.only = some true
      · have hae : dd.allow = [] := by
          by_contra hne
          exact henum ⟨ho, hne⟩
        simp [hae]
      · simp [ho]
    rw [hcond]
    simp only [Bool.false_eq_true, if_false]
    have hnc : dd.allow.contains JVal.null = false := by simpa using hnull
    rw [hnc]
    split
    all_goals try (exfalso; simp_all; done)
    rw [Joi.joiApplyNullable_false]
    show SchemaObject.mk ((Joi.joiMetadata dd opts).merge emptyNode.f) = _
    rw [show emptyNode.f = ({} : SchemaF SchemaObject) from rfl,
      SchemaF.merge_emptyF_right]

/-- Concrete description for the C4 witness: an unrecognized Dialect-B tag
with only metadata. -/
def joiUnrecognizedMetaExample : Joi.JoiDescription :=
  .mk { type := "frobnicate", flags := { description := some "note" } }

/-- Witness for the amended C4: an unrecognized Dialect-A tag with a
description, and an unrecognized Dialect-B tag with a description. -/
theorem claim_C4_amended_witness :
    (0 ≤ ({} : ConvOptions).maxDepth ∧
      Zod.convertZodType (.unrecognized (some "doc") "ZodWeird") {} 0 =
        .mk { description := some "doc" }) ∧
    (Joi.convertJoiDescription joiUnrecognizedMetaExample {} 0 =
      .mk { description := some "note" }) := by
  refine ⟨⟨by decide, ?_⟩, ?_⟩
  · have h := (claim_C4_amended (some "doc") "ZodWeird"
      joiUnrecognizedMetaExample {} 0 (by decide) (by decide) (by decide)
      (by decide)).1
    rw [h]
    rfl
  · have h := (claim_C4_amended (some "doc") "ZodWeird"
      joiUnrecognizedMetaExample {} 0 (by decide) (by decide) (by decide)
      (by decide)).2
    rw [h]
    rfl

-- ─── C8: description carry-forward in Dialect-A ──────────────────────────────

namespace Zod

/-- String checks never write a description. -/
theorem applyStringCheck_description (r : SchemaF SchemaObject)
    (c : ZodStringCheck) : (applyStringCheck r c).description = r.description := by
  cases c <;> rfl

theorem foldl_applyStringCheck_description (checks : List ZodStringCheck) :
    ∀ r : SchemaF SchemaObject,
      (checks.foldl applyStringCheck r).description = r.description := by
  induction checks with
  | nil => intro r; rfl
  | cons c cs ih =>
      intro r
      rw [List.foldl_cons, ih, applyStringCheck_description]

/-- The string converter output carries no description. -/
theorem convertZodString_description (checks : List ZodStringCheck)
    (opts : ConvOptions) : (convertZodString checks opts).f.description = none := by
  unfold convertZodString
  rw [SchemaObject.f_mk, foldl_applyStringCheck_description]

/-- Number checks never write a description. -/
theorem applyNumberCheck_description (acc : SchemaF SchemaObject × Bool)
    (c : ZodNumberCheck) : (applyNumberCheck acc c).1.description = acc.1.description := by
  cases c <;> simp [applyNumberCheck] <;> split <;> rfl

theorem foldl_applyNumberCheck_description (checks : List ZodNumberCheck) :
    ∀ acc : SchemaF SchemaObject × Bool,
      (checks.foldl applyNumberCheck acc).1.description = acc.1.description := by
  induction checks with
  | nil => intro acc; rfl
  | cons c cs ih =>
      intro acc
      rw [List.foldl_cons, ih, applyNumberCheck_description]

/-- The number converter output carries no description. -/
theorem convertZodNumber_description (checks : List ZodNumberCheck) :
    (convertZodNumber checks).f.description = none := by
  unfold convertZodNumber
  rw [SchemaObject.f_mk]
  show (checks.foldl applyNumberCheck ({}, false)).1.description = none
  rw [foldl_applyNumberCheck_description]

/-- The inner schema of the wrappers whose arms spread the inner
conversion over the collected metadata (`{...result, ...inner}`):
ZodOptional, ZodNullable, ZodDefault and ZodReadonly. -/
def ZodSchema.wrapInner : ZodSchema → Option ZodSchema
  | .optional _ i => some i
  | .nullable _ i => some i
  | .zodDefault _ i _ => some i
  | .readonly _ i => some i
  | _ => none

end Zod

/-- Counterexample to C8 as stated: a ZodCatch wrapper carrying a
description converts by returning the inner conversion unchanged, so the
description is dropped from the final node. -/
theorem claim_C8_counterexample :
    (Zod.ZodSchema.zodCatch (some "outer") (.string none [])).description =
      some "outer" ∧
    (Zod.convertZodType (.zodCatch (some "outer") (.string none [])) {} 0).f.description
      = none :=
  ⟨rfl, rfl⟩

/-- C8 as amended: with `includeDescriptions` on and the depth guard not
hit, the extracted description is present in the final node for every type
tag except the pure pass-through wrappers (ZodCatch, ZodBranded,
ZodPipeline, ZodEffects), which return the inner conversion and drop it —
and, for the unwrapping wrappers (ZodOptional, ZodNullable, ZodDefault,
ZodReadonly), provided the inner conversion does not carry its own
description, which would overwrite the outer one in the spread. -/
theorem claim_C8_amended (schema : Zod.ZodSchema) (d : String)
    (opts : ConvOptions) (depth : Nat)
    (hinc : opts.includeDescriptions = true)
    (hdesc : schema.description = some d)
    (hne : d ≠ "")
    (hd : depth ≤ opts.maxDepth)
    (hpass : schema.typeName ∉ ["ZodCatch", "ZodBranded", "ZodPipeline", "ZodEffects"])
    (hwrap : ∀ i, schema.wrapInner = some i →
      (Zod.convertZodType i opts (depth + 1)).f.description = none) :
    (Zod.convertZodType schema opts depth).f.description = some d := by
  have hmeta : Zod.zodMetadata schema opts =
      { description := some d } := by
    simp [Zod.zodMetadata, hinc, hdesc, truthyStr, hne]
  unfold Zod.convertZodType at hwrap ⊢
  rw [show opts.maxDepth + 1 - depth = (opts.maxDepth - depth) + 1 by omega]
  simp only [show opts.maxDepth + 1 - (depth + 1) = opts.maxDepth - depth by omega] at hwrap
  simp only [Zod.convertZodTypeFuel]
  rw [if_neg (by omega : ¬ depth > opts.maxDepth)]
  simp only [hmeta]
  cases schema with
  | zodCatch d0 i => simp [Zod.ZodSchema.typeName] at hpass
  | branded d0 i => simp [Zod.ZodSchema.typeName] at hpass
  | pipeline d0 i => simp [Zod.ZodSchema.typeName] at hpass
  | effects d0 i => simp [Zod.ZodSchema.typeName] at hpass
  | string d0 checks =>
      simp [SchemaF.merge_descF, Zod.convertZodString_description]
  | number d0 checks =>
      simp [SchemaF.merge_descF, Zod.convertZodNumber_description]
  | optional d0 i =>
      have hw := hwrap i rfl
      simp [SchemaF.merge_descF, hw]
  | nullable d0 i =>
      have hw := hwrap i rfl
      cases hx : (Zod.convertZodTypeFuel (opts.maxDepth - depth) i opts (depth + 1)).f.type with
      | none => simp [SchemaF.merge_descF, hw, hx]
      | some tf =>
          cases tf with
          | single t => simp [SchemaF.merge_descF, hw, hx]
          | multi ts => simp [SchemaF.merge_descF, hw, hx]
  | zodDefault d0 i dv =>
      have hw := hwrap i rfl
      dsimp only
      split <;> simp [SchemaF.merge_descF, hw]
  | readonly d0 i =>
      have hw := hwrap i rfl
      simp [SchemaF.merge_descF, hw]
  | object d0 sh uk ca => simp [SchemaF.merge_descF]
  | array d0 el mn mx ex => simp [SchemaF.merge_descF]
  | tuple d0 its rst => simp [SchemaF.merge_descF]
  | record d0 vt => cases vt <;> rfl
  | set d0 vt => cases vt <;> rfl
  | _ => rfl

/-- Witness for the amended C8: a described plain string schema. -/
theorem claim_C8_amended_witness :
    (({} : ConvOptions).includeDescriptions = true ∧
      (Zod.ZodSchema.string (some "doc") []).description = some "doc" ∧
      "doc" ≠ "" ∧ 0 ≤ ({} : ConvOptions).maxDepth) ∧
    (Zod.convertZodType (.string (some "doc") []) {} 0).f.description = some "doc" := by
  refine ⟨⟨rfl, rfl, by decide, by decide⟩, ?_⟩
  exact claim_C8_amended (.string (some "doc") []) "doc" {} 0 rfl rfl (by decide)
    (by decide) (by decide) (fun i hi => by simp [Zod.ZodSchema.wrapInner] at hi)

-- ─── C7: options toggles (strip commutation) ─────────────────────────────────

/-- Both metadata records are description-only. -/
theorem Zod.zodMetadata_shape (s : Zod.ZodSchema) (o : ConvOptions) :
    Zod.zodMetadata s o = { description := (Zod.zodMetadata s o).description } := by
  unfold Zod.zodMetadata
  split <;> rfl

/-- The Dialect-A metadata does not depend on `includeDefaults`. -/
theorem Zod.zodMetadata_opts (s : Zod.ZodSchema) (b1 : Bool) (v1 v2 : Bool) (m : Nat) :
    Zod.zodMetadata s ⟨b1, v1, m⟩ = Zod.zodMetadata s ⟨b1, v2, m⟩ := rfl

/-- With `includeDescriptions` off the Dialect-A metadata is empty. -/
theorem Zod.zodMetadata_false (s : Zod.ZodSchema) (v : Bool) (m : Nat) :
    Zod.zodMetadata s ⟨false, v, m⟩ = {} := by
  simp [Zod.zodMetadata]

/-- Stripping defaults ignores a `default` assignment. -/
theorem stripDefaults_set_default (X : SchemaF SchemaObject) (v : Option JVal) :
    stripDefaults (.mk { X with default := v }) = stripDefaults (.mk X) := by
  rw [stripDefaults_mk, stripDefaults_mk]

/-- Stripping defaults leaves the description untouched. -/
theorem stripDefaults_description (s : SchemaObject) :
    (stripDefaults s).f.description = s.f.description := by
  cases s; rw [stripDefaults_mk]; rfl

/-- Stripping descriptions leaves the default untouched. -/
theorem stripDescriptions_default (s : SchemaObject) :
    (stripDescriptions s).f.default = s.f.default := by
  cases s; rw [stripDescriptions_mk]; rfl

/-- Stripping descriptions commutes with a `default` assignment. -/
theorem stripDescriptions_set_default (X : SchemaF SchemaObject) (v : Option JVal) :
    stripDescriptions (.mk { X with default := v }) =
      .mk { (stripDescriptions (.mk X)).f with default := v } := by
  rw [stripDescriptions_mk, stripDescriptions_mk]; rfl

/-- Merging a description-only record before stripping defaults is the
same as merging it after. -/
theorem stripDefaults_merge_desc (D : Option String) (X : SchemaF SchemaObject) :
    stripDefaults (.mk (SchemaF.merge { description := D } X)) =
      .mk (SchemaF.merge { description := D } (stripDefaults (.mk X)).f) := by
  rw [SchemaF.merge_descF, stripDefaults_mk, stripDefaults_mk,
    SchemaF.merge_descF]
  rfl

/-- Merging a description-only record is invisible to the description
strip. -/
theorem stripDescriptions_merge_desc (D : Option String) (X : SchemaF SchemaObject) :
    stripDescriptions (.mk (SchemaF.merge { description := D } X)) =
      stripDescriptions (.mk X) := by
  rw [SchemaF.merge_descF, stripDescriptions_mk, stripDescriptions_mk]

/-- A node record is recursion-free when every node-valued field is
absent. -/
def SchemaF.flat (X : SchemaF SchemaObject) : Prop :=
  X.anyOf = none ∧ X.allOf = none ∧ X.not = none ∧ X.properties = none ∧
  X.additionalProperties = none ∧ X.items = none ∧ X.prefixItems = none

/-- Stripping descriptions of a recursion-free node without description is
the identity. -/
theorem stripDescriptions_flat (X : SchemaF SchemaObject)
    (hflat : X.flat) (hdesc : X.description = none) :
    stripDescriptions (.mk X) = .mk X := by
  obtain ⟨h1, h2, h3, h4, h5, h6, h7⟩ := hflat
  cases X
  simp_all [stripDescriptions_mk, SchemaF.flat]

/-- Stripping defaults of a recursion-free node without default is the
identity. -/
theorem stripDefaults_flat (X : SchemaF SchemaObject)
    (hflat : X.flat) (hdef : X.default = none) :
    stripDefaults (.mk X) = .mk X := by
  obtain ⟨h1, h2, h3, h4, h5, h6, h7⟩ := hflat
  cases X
  simp_all [stripDefaults_mk, SchemaF.flat]

namespace Zod

/-- String checks touch no node-valued field, no default and no
description. -/
theorem applyStringCheck_inert (r : SchemaF SchemaObject) (c : ZodStringCheck) :
    (applyStringCheck r c).flat = r.flat ∧
    (applyStringCheck r c).default = r.default := by
  cases c <;> exact ⟨rfl, rfl⟩

theorem foldl_applyStringCheck_inert (checks : List ZodStringCheck) :
    ∀ r : SchemaF SchemaObject,
      (checks.foldl applyStringCheck r).flat = r.flat ∧
      (checks.foldl applyStringCheck r).default = r.default := by
  induction checks with
  | nil => intro r; exact ⟨rfl, rfl⟩
  | cons c cs ih =>
      intro r
      rw [List.foldl_cons]
      obtain ⟨ha, hb⟩ := ih (applyStringCheck r c)
      obtain ⟨hc, hd⟩ := applyStringCheck_inert r c
      exact ⟨ha.trans hc, hb.trans hd⟩

/-- The string converter output is recursion-free with no default and no
description; converted strings are invariant under both strips. -/
theorem convertZodString_flat (checks : List ZodStringCheck) (opts : ConvOptions) :
    (convertZodString checks opts).f.flat ∧
    (convertZodString checks opts).f.default = none := by
  unfold convertZodString
  rw [SchemaObject.f_mk]
  obtain ⟨ha, hb⟩ := foldl_applyStringCheck_inert checks { type := some (.single "string") }
  constructor
  · rw [ha]; exact ⟨rfl, rfl, rfl, rfl, rfl, rfl, rfl⟩
  · rw [hb]

/-- The string converter ignores its options argument. -/
theorem convertZodString_opts (checks : List ZodStringCheck) (o1 o2 : ConvOptions) :
    convertZodString checks o1 = convertZodString checks o2 := rfl

/-- Number checks touch no node-valued field, no default and no
description. -/
theorem applyNumberCheck_inert (acc : SchemaF SchemaObject × Bool) (c : ZodNumberCheck) :
    (applyNumberCheck acc c).1.flat = acc.1.flat ∧
    (applyNumberCheck acc c).1.default = acc.1.default := by
  obtain ⟨r, flag⟩ := acc
  cases c <;> try exact ⟨rfl, rfl⟩
  all_goals (rename_i v incl; cases incl <;> exact ⟨rfl, rfl⟩)

theorem foldl_applyNumberCheck_inert (checks : List ZodNumberCheck) :
    ∀ acc : SchemaF SchemaObject × Bool,
      (checks.foldl applyNumberCheck acc).1.flat = acc.1.flat ∧
      (checks.foldl applyNumberCheck acc).1.default = acc.1.default := by
  induction checks with
  | nil => intro acc; exact ⟨rfl, rfl⟩
  | cons c cs ih =>
      intro acc
      rw [List.foldl_cons]
      obtain ⟨ha, hb⟩ := ih (applyNumberCheck acc c)
      obtain ⟨hc, hd⟩ := applyNumberCheck_inert acc c
      exact ⟨ha.trans hc, hb.trans hd⟩

/-- The number converter output is recursion-free with no default and no
description. -/
theorem convertZodNumber_flat (checks : List ZodNumberCheck) :
    (convertZodNumber checks).f.flat ∧
    (convertZodNumber checks).f.default = none := by
  unfold convertZodNumber
  rw [SchemaObject.f_mk]
  obtain ⟨ha, hb⟩ := foldl_applyNumberCheck_inert checks ({}, false)
  constructor
  · show (checks.foldl applyNumberCheck ({}, false)).1.flat
    rw [ha]
    exact ⟨rfl, rfl, rfl, rfl, rfl, rfl, rfl⟩
  · show (checks.foldl applyNumberCheck ({}, false)).1.default = none
    rw [hb]

end Zod

theorem stripDescriptions_set_desc_type (X : SchemaF SchemaObject)
    (d0 : Option String) (v : Option TypeField) :
    stripDescriptions (.mk { X with description := d0, type := v }) =
      .mk { (stripDescriptions (.mk X)).f with type := v } := by
  rw [stripDescriptions_mk, stripDescriptions_mk]; rfl

theorem stripDescriptions_set_desc_readOnly (X : SchemaF SchemaObject)
    (d0 : Option String) (v : Option Bool) :
    stripDescriptions (.mk { X with description := d0, readOnly := v }) =
      .mk { (stripDescriptions (.mk X)).f with readOnly := v } := by
  rw [stripDescriptions_mk, stripDescriptions_mk]; rfl

theorem stripDescriptions_set_desc_default (X : SchemaF SchemaObject)
    (d0 : Option String) (v : Option JVal) :
    stripDescriptions (.mk { X with description := d0, default := v }) =
      .mk { (stripDescriptions (.mk X)).f with default := v } := by
  rw [stripDescriptions_mk, stripDescriptions_mk]; rfl

theorem stripDescriptions_type (s : SchemaObject) :
    (stripDescriptions s).f.type = s.f.type := by
  cases s; rw [stripDescriptions_mk]; rfl

theorem ConvOptions.includeDefaults_mk (a v : Bool) (m : Nat) :
    (ConvOptions.mk a v m).includeDefaults = v := rfl

theorem stripDescriptions_merge_desc_set_type (D : Option String)
    (X : SchemaF SchemaObject) (v : Option TypeField) :
    stripDescriptions (.mk { SchemaF.merge { description := D } X with type := v }) =
      .mk { (stripDescriptions (.mk X)).f with type := v } := by
  rw [SchemaF.merge_descF, stripDescriptions_mk, stripDescriptions_mk]
  rfl

theorem stripDescriptions_merge_desc_set_default (D : Option String)
    (X : SchemaF SchemaObject) (v : Option JVal) :
    stripDescriptions (.mk { SchemaF.merge { description := D } X with default := v }) =
      .mk { (stripDescriptions (.mk X)).f with default := v } := by
  rw [SchemaF.merge_descF, stripDescriptions_mk, stripDescriptions_mk]
  rfl

theorem stripDescriptions_merge_desc_set_readOnly (D : Option String)
    (X : SchemaF SchemaObject) (v : Option Bool) :
    stripDescriptions (.mk { SchemaF.merge { description := D } X with readOnly := v }) =
      .mk { (stripDescriptions (.mk X)).f with readOnly := v } := by
  rw [SchemaF.merge_descF, stripDescriptions_mk, stripDescriptions_mk]
  rfl

theorem stripDescriptions_desc_anyOf (D : Option String) (l : List SchemaObject) :
    stripDescriptions (.mk { ({ description := D } : SchemaF SchemaObject) with
        anyOf := some l }) =
      .mk { anyOf := some (l.map stripDescriptions) } := by
  rw [stripDescriptions_mk]
  rfl

theorem stripDescriptions_nullNode :
    stripDescriptions (.mk { type := some (.single "null") }) =
      .mk { type := some (.single "null") } := by
  rw [stripDescriptions_mk]
  rfl

theorem stripDescriptions_attach_default (g : SchemaF SchemaObject) (v : JVal) :
    stripDescriptions (.mk { (SchemaObject.mk g).f with default := some v }) =
      .mk { (stripDescriptions (SchemaObject.mk g)).f with default := some v } := by
  rw [stripDescriptions_mk, stripDescriptions_mk]
  rfl

theorem stripDefaults_attach_default (g : SchemaF SchemaObject) (v : JVal) :
    stripDefaults (.mk { (SchemaObject.mk g).f with default := some v }) =
      stripDefaults (SchemaObject.mk g) := by
  rw [stripDefaults_mk, stripDefaults_mk]
  rfl

set_option maxHeartbeats 1000000 in
theorem Zod.convertZodTypeFuel_stripDescriptions (b : Bool) (m : Nat) (fuel : Nat) :
    ∀ (s : Zod.ZodSchema) (depth : Nat),
      Zod.convertZodTypeFuel fuel s ⟨false, b, m⟩ depth =
        stripDescriptions (Zod.convertZodTypeFuel fuel s ⟨true, b, m⟩ depth) := by
  induction fuel with
  | zero =>
      intro s depth
      show emptyNode = stripDescriptions emptyNode
      rw [stripDescriptions_emptyNode]
  | succ f ih =>
      intro s depth
      simp only [Zod.convertZodTypeFuel]
      by_cases hd : depth > m
      · rw [if_pos hd, if_pos hd, stripDescriptions_emptyNode]
      · rw [if_neg hd, if_neg hd]
        obtain ⟨D, hD⟩ : ∃ D, Zod.zodMetadata s ⟨true, b, m⟩ =
            { description := D } := ⟨_, Zod.zodMetadata_shape s _⟩
        simp only [hD, Zod.zodMetadata_false]
        cases s with
        | string d0 checks =>
            dsimp only
            rw [Zod.convertZodString_opts checks ⟨false, b, m⟩ ⟨true, b, m⟩,
              SchemaF.merge_emptyF, stripDescriptions_merge_desc,
              stripDescriptions_flat _ (Zod.convertZodString_flat checks _).1
                (Zod.convertZodString_description checks _)]
        | number d0 checks =>
            dsimp only
            rw [SchemaF.merge_emptyF, stripDescriptions_merge_desc,
              stripDescriptions_flat _ (Zod.convertZodNumber_flat checks).1
                (Zod.convertZodNumber_description checks)]
        | optional d0 i =>
            dsimp only
            rw [SchemaF.merge_emptyF, SchemaObject.mk_f, stripDescriptions_merge_desc,
              SchemaObject.mk_f, ← ih i (depth + 1)]
        | bigInt d0 => dsimp only; rw [stripDescriptions_mk]; rfl
        | boolean d0 => dsimp only; rw [stripDescriptions_mk]; rfl
        | null d0 => dsimp only; rw [stripDescriptions_mk]; rfl
        | undefined d0 => dsimp only; rw [stripDescriptions_mk]; simp
        | literal d0 v => dsimp only; rw [stripDescriptions_mk]; rfl
        | enum d0 vs => dsimp only; rw [stripDescriptions_mk]; rfl
        | nativeEnum d0 vs => dsimp only; rw [stripDescriptions_mk]; rfl
        | map d0 => dsimp only; rw [stripDescriptions_mk]; rfl
        | function d0 => dsimp only; rw [stripDescriptions_mk]; rfl
        | lazy d0 => dsimp only; rw [stripDescriptions_mk]; rfl
        | promise d0 => dsimp only; rw [stripDescriptions_mk]; rfl
        | unknown d0 => dsimp only; rw [stripDescriptions_mk]; rfl
        | any d0 => dsimp only; rw [stripDescriptions_mk]; rfl
        | never d0 => dsimp only; rw [stripDescriptions_mk]; simp
        | void d0 => dsimp only; rw [stripDescriptions_mk]; rfl
        | date d0 => dsimp only; rw [stripDescriptions_mk]; rfl
        | symbol d0 => dsimp only; rw [stripDescriptions_mk]; rfl
        | unrecognized d0 t => dsimp only; rw [stripDescriptions_mk]; rfl
        | zodCatch d0 i => exact ih i (depth + 1)
        | branded d0 i => exact ih i (depth + 1)
        | pipeline d0 i => exact ih i (depth + 1)
        | effects d0 i => exact ih i (depth + 1)
        | union d0 os =>
            dsimp only
            rw [stripDescriptions_mk]
            simp [ih, List.map_map, Function.comp_def]
        | discriminatedUnion d0 os =>
            dsimp only
            rw [stripDescriptions_mk]
            simp [ih, List.map_map, Function.comp_def]
        | intersection d0 l r =>
            dsimp only
            rw [stripDescriptions_mk]
            simp [ih]
        | nullable d0 i =>
            dsimp only
            have hy := ih i (depth + 1)
            generalize hG : Zod.convertZodTypeFuel f i ⟨true, b, m⟩ (depth + 1) = y at hy ⊢
            rw [hy]
            cases y with
            | mk g =>
                have hty : (stripDescriptions (SchemaObject.mk g)).f.type = g.type :=
                  stripDescriptions_type (SchemaObject.mk g)
                rw [hty, SchemaObject.f_mk]
                cases hg : g.type with
                | none =>
                    dsimp only
                    rw [stripDescriptions_desc_anyOf]
                    simp only [List.map_cons, List.map_nil]
                    rw [stripDescriptions_nullNode]
                | some tf =>
                    cases tf with
                    | single t =>
                        dsimp only
                        rw [SchemaF.merge_emptyF, stripDescriptions_merge_desc_set_type]
                    | multi ts =>
                        dsimp only
                        rw [stripDescriptions_desc_anyOf]
                        simp only [List.map_cons, List.map_nil]
                        rw [stripDescriptions_nullNode]
        | zodDefault d0 i dv =>
            dsimp only
            have hy := ih i (depth + 1)
            generalize hG : Zod.convertZodTypeFuel f i ⟨true, b, m⟩ (depth + 1) = y at hy ⊢
            rw [hy]
            cases y with
            | mk g =>
                by_cases hb : (b && dv.isSome) = true
                · rw [if_pos hb, if_pos hb, SchemaF.merge_emptyF,
                    stripDescriptions_merge_desc_set_default]
                  rfl
                · rw [if_neg hb, if_neg hb, SchemaF.merge_emptyF,
                    stripDescriptions_merge_desc, SchemaObject.mk_f]
                  rfl
        | readonly d0 i =>
            dsimp only
            have hy := ih i (depth + 1)
            generalize hG : Zod.convertZodTypeFuel f i ⟨true, b, m⟩ (depth + 1) = y at hy ⊢
            rw [hy]
            cases y with
            | mk g =>
                rw [SchemaF.merge_emptyF, stripDescriptions_merge_desc_set_readOnly]
                rfl
        | object d0 sh uk ca =>
            dsimp only
            rw [SchemaF.merge_emptyF, SchemaF.merge_descF, stripDescriptions_mk]
            congr 1
            congr 1
            all_goals try rfl
            ·
              cases sh with
              | nil => rfl
              | cons hd tl =>
                have hIE : ∀ {β : Type} (fn : String × Zod.ZodSchema → β),
                    (List.map fn (hd :: tl)).isEmpty = false := fun _ => rfl
                rw [hIE, hIE]
                simp only [Bool.false_eq_true, if_false]
                simp only [Option.map_some']
                congr 1
                rw [List.map_map]
                apply List.map_congr_left
                intro kv _
                dsimp only [Function.comp_apply]
                refine Prod.ext rfl ?_
                have hy := ih (Zod.unwrapZodOptional kv.2) (depth + 1)
                generalize hG : Zod.convertZodTypeFuel f (Zod.unwrapZodOptional kv.2)
                    ⟨true, b, m⟩ (depth + 1) = y at hy ⊢
                rw [hy, stripDescriptions_default y]
                cases y with
                | mk g =>
                    by_cases hc : (b && decide (kv.2.typeName = "ZodDefault") &&
                        (SchemaObject.mk g).f.default.isNone) = true
                    · rw [if_pos hc, if_pos hc]
                      cases hdv : kv.2.defaultValue with
                      | some dv0 =>
                          dsimp only
                          rw [stripDescriptions_attach_default]
                      | none => rfl
                    · rw [if_neg hc, if_neg hc]
            ·
              cases ca with
              | none =>
                  dsimp only
                  by_cases h1 : uk = some "strict"
                  · rw [if_pos h1]
                    rfl
                  · rw [if_neg h1]
                    by_cases h2 : uk = some "passthrough"
                    · rw [if_pos h2]
                      rfl
                    · rw [if_neg h2]
                      rfl
              | some c =>
                  dsimp only
                  by_cases hcn : c.typeName ≠ "ZodNever"
                  · rw [if_pos hcn, if_pos hcn]
                    dsimp only
                    rw [ih c (depth + 1)]
                    rfl
                  · rw [if_neg hcn, if_neg hcn]
                    dsimp only
                    by_cases h1 : uk = some "strict"
                    · rw [if_pos h1]
                      rfl
                    · rw [if_neg h1]
                      by_cases h2 : uk = some "passthrough"
                      · rw [if_pos h2]
                        rfl
                      · rw [if_neg h2]
                        rfl
        | array d0 el mn mx ex =>
            dsimp only
            cases el with
            | none =>
                rw [SchemaF.merge_emptyF, SchemaF.merge_descF, stripDescriptions_mk]
                rfl
            | some itemSchema =>
                dsimp only
                rw [ih itemSchema (depth + 1), SchemaF.merge_emptyF,
                  SchemaF.merge_descF, stripDescriptions_mk]
                rfl
        | tuple d0 its rst =>
            dsimp only
            cases rst with
            | none =>
                rw [SchemaF.merge_emptyF, SchemaF.merge_descF, stripDescriptions_mk]
                simp [ih, List.map_map, Function.comp_def]
            | some r =>
                rw [SchemaF.merge_emptyF, SchemaF.merge_descF, stripDescriptions_mk]
                simp [ih, List.map_map, Function.comp_def]
        | record d0 vt =>
            dsimp only
            cases vt with
            | none => rw [stripDescriptions_mk]; rfl
            | some v => rw [stripDescriptions_mk]; simp [ih]
        | set d0 vt =>
            dsimp only
            cases vt with
            | none => rw [stripDescriptions_mk]; rfl
            | some v => rw [stripDescriptions_mk]; simp [ih]

theorem stripDefaults_type (s : SchemaObject) :
    (stripDefaults s).f.type = s.f.type := by
  cases s; rw [stripDefaults_mk]; rfl

theorem stripDefaults_merge_desc_set_type (D : Option String)
    (X : SchemaF SchemaObject) (v : Option TypeField) :
    stripDefaults (.mk { SchemaF.merge { description := D } X with type := v }) =
      .mk { SchemaF.merge { description := D } (stripDefaults (.mk X)).f with type := v } := by
  rw [SchemaF.merge_descF, SchemaF.merge_descF, stripDefaults_mk, stripDefaults_mk]
  rfl

theorem stripDefaults_merge_desc_set_readOnly (D : Option String)
    (X : SchemaF SchemaObject) (v : Option Bool) :
    stripDefaults (.mk { SchemaF.merge { description := D } X with readOnly := v }) =
      .mk { SchemaF.merge { description := D } (stripDefaults (.mk X)).f with readOnly := v } := by
  rw [SchemaF.merge_descF, SchemaF.merge_descF, stripDefaults_mk, stripDefaults_mk]
  rfl

theorem stripDefaults_desc_anyOf (D : Option String) (l : List SchemaObject) :
    stripDefaults (.mk { ({ description := D } : SchemaF SchemaObject) with
        anyOf := some l }) =
      .mk { ({ description := D } : SchemaF SchemaObject) with
        anyOf := some (l.map stripDefaults) } := by
  rw [stripDefaults_mk]
  rfl

theorem stripDefaults_nullNode :
    stripDefaults (.mk { type := some (.single "null") }) =
      .mk { type := some (.single "null") } := by
  rw [stripDefaults_mk]
  rfl

set_option maxHeartbeats 1000000 in
theorem Zod.convertZodTypeFuel_stripDefaults (b : Bool) (m : Nat) (fuel : Nat) :
    ∀ (s : Zod.ZodSchema) (depth : Nat),
      Zod.convertZodTypeFuel fuel s ⟨b, false, m⟩ depth =
        stripDefaults (Zod.convertZodTypeFuel fuel s ⟨b, true, m⟩ depth) := by
  induction fuel with
  | zero =>
      intro s depth
      show emptyNode = stripDefaults emptyNode
      rw [stripDefaults_emptyNode]
  | succ f ih =>
      intro s depth
      simp only [Zod.convertZodTypeFuel]
      by_cases hd : depth > m
      · rw [if_pos hd, if_pos hd, stripDefaults_emptyNode]
      · rw [if_neg hd, if_neg hd]
        obtain ⟨D, hD⟩ : ∃ D, Zod.zodMetadata s ⟨b, true, m⟩ =
            { description := D } := ⟨_, Zod.zodMetadata_shape s _⟩
        have hD2 : Zod.zodMetadata s ⟨b, false, m⟩ =
            ({ description := D } : SchemaF SchemaObject) :=
          (Zod.zodMetadata_opts s b false true m).trans hD
        simp only [hD, hD2]
        cases s with
        | string d0 checks =>
            dsimp only
            rw [Zod.convertZodString_opts checks ⟨b, false, m⟩ ⟨b, true, m⟩,
              stripDefaults_merge_desc,
              stripDefaults_flat _ (Zod.convertZodString_flat checks _).1
                (Zod.convertZodString_flat checks _).2]
            rfl
        | number d0 checks =>
            dsimp only
            rw [stripDefaults_merge_desc,
              stripDefaults_flat _ (Zod.convertZodNumber_flat checks).1
                (Zod.convertZodNumber_flat checks).2]
            rfl
        | optional d0 i =>
            dsimp only
            rw [stripDefaults_merge_desc, SchemaObject.mk_f, ← ih i (depth + 1)]
        | bigInt d0 => dsimp only; rw [stripDefaults_mk]; rfl
        | boolean d0 => dsimp only; rw [stripDefaults_mk]; rfl
        | null d0 => dsimp only; rw [stripDefaults_mk]; rfl
        | undefined d0 => dsimp only; rw [stripDefaults_mk]; simp
        | literal d0 v => dsimp only; rw [stripDefaults_mk]; rfl
        | enum d0 vs => dsimp only; rw [stripDefaults_mk]; rfl
        | nativeEnum d0 vs => dsimp only; rw [stripDefaults_mk]; rfl
        | map d0 => dsimp only; rw [stripDefaults_mk]; rfl
        | function d0 => dsimp only; rw [stripDefaults_mk]; rfl
        | lazy d0 => dsimp only; rw [stripDefaults_mk]; rfl
        | promise d0 => dsimp only; rw [stripDefaults_mk]; rfl
        | unknown d0 => dsimp only; rw [stripDefaults_mk]; rfl
        | any d0 => dsimp only; rw [stripDefaults_mk]; rfl
        | never d0 => dsimp only; rw [stripDefaults_mk]; simp
        | void d0 => dsimp only; rw [stripDefaults_mk]; rfl
        | date d0 => dsimp only; rw [stripDefaults_mk]; rfl
        | symbol d0 => dsimp only; rw [stripDefaults_mk]; rfl
        | unrecognized d0 t => dsimp only; rw [stripDefaults_mk]; rfl
        | zodCatch d0 i => exact ih i (depth + 1)
        | branded d0 i => exact ih i (depth + 1)
        | pipeline d0 i => exact ih i (depth + 1)
        | effects d0 i => exact ih i (depth + 1)
        | union d0 os =>
            dsimp only
            rw [stripDefaults_mk]
            simp [ih, List.map_map, Function.comp_def]
        | discriminatedUnion d0 os =>
            dsimp only
            rw [stripDefaults_mk]
            simp [ih, List.map_map, Function.comp_def]
        | intersection d0 l r =>
            dsimp only
            rw [stripDefaults_mk]
            simp [ih]
        | nullable d0 i =>
            dsimp only
            have hy := ih i (depth + 1)
            generalize hG : Zod.convertZodTypeFuel f i ⟨b, true, m⟩ (depth + 1) = y at hy ⊢
            rw [hy]
            cases y with
            | mk g =>
                have hty : (stripDefaults (SchemaObject.mk g)).f.type = g.type :=
                  stripDefaults_type (SchemaObject.mk g)
                rw [hty, SchemaObject.f_mk]
                cases hg : g.type with
                | none =>
                    dsimp only
                    rw [stripDefaults_desc_anyOf]
                    simp only [List.map_cons, List.map_nil]
                    rw [stripDefaults_nullNode]
                | some tf =>
                    cases tf with
                    | single t =>
                        dsimp only
                        rw [stripDefaults_merge_desc_set_type]
                    | multi ts =>
                        dsimp only
                        rw [stripDefaults_desc_anyOf]
                        simp only [List.map_cons, List.map_nil]
                        rw [stripDefaults_nullNode]
        | zodDefault d0 i dv =>
            dsimp only
            have hy := ih i (depth + 1)
            generalize hG : Zod.convertZodTypeFuel f i ⟨b, true, m⟩ (depth + 1) = y at hy ⊢
            rw [hy]
            cases y with
            | mk g =>
                simp only [Bool.false_and, Bool.true_and, Bool.false_eq_true, if_false]
                cases hdv : dv with
                | none =>
                    simp only [Option.isSome_none, Bool.false_eq_true, if_false]
                    rw [stripDefaults_merge_desc, SchemaObject.mk_f]
                | some v0 =>
                    simp only [Option.isSome_some, if_true]
                    rw [stripDefaults_set_default
                        (SchemaF.merge { description := D } (SchemaObject.mk g).f)
                        (some v0),
                      stripDefaults_merge_desc, SchemaObject.mk_f]
        | readonly d0 i =>
            dsimp only
            have hy := ih i (depth + 1)
            generalize hG : Zod.convertZodTypeFuel f i ⟨b, true, m⟩ (depth + 1) = y at hy ⊢
            rw [hy]
            cases y with
            | mk g =>
                rw [stripDefaults_merge_desc_set_readOnly]
                rfl
        | object d0 sh uk ca =>
            dsimp only
            rw [SchemaF.merge_descF, SchemaF.merge_descF, stripDefaults_mk]
            congr 1
            congr 1
            all_goals try rfl
            ·
              cases sh with
              | nil => rfl
              | cons hd tl =>
                have hIE : ∀ {β : Type} (fn : String × Zod.ZodSchema → β),
                    (List.map fn (hd :: tl)).isEmpty = false := fun _ => rfl
                rw [hIE, hIE]
                simp only [Bool.false_eq_true, if_false]
                simp only [Option.map_some']
                congr 1
                rw [List.map_map]
                apply List.map_congr_left
                intro kv _
                dsimp only [Function.comp_apply]
                refine Prod.ext rfl ?_
                simp only [Bool.false_and, Bool.true_and, Bool.false_eq_true, if_false]
                have hy := ih (Zod.unwrapZodOptional kv.2) (depth + 1)
                generalize hG : Zod.convertZodTypeFuel f (Zod.unwrapZodOptional kv.2)
                    ⟨b, true, m⟩ (depth + 1) = y at hy ⊢
                rw [hy]
                cases y with
                | mk g =>
                    by_cases hc : (decide (kv.2.typeName = "ZodDefault") &&
                        (SchemaObject.mk g).f.default.isNone) = true
                    · rw [if_pos hc]
                      cases hdv : kv.2.defaultValue with
                      | some dv0 =>
                          dsimp only
                          rw [stripDefaults_attach_default]
                      | none => rfl
                    · rw [if_neg hc]
            ·
              cases ca with
              | none =>
                  dsimp only
                  by_cases h1 : uk = some "strict"
                  · rw [if_pos h1]
                    rfl
                  · rw [if_neg h1]
                    by_cases h2 : uk = some "passthrough"
                    · rw [if_pos h2]
                      rfl
                    · rw [if_neg h2]
                      rfl
              | some c =>
                  dsimp only
                  by_cases hcn : c.typeName ≠ "ZodNever"
                  · rw [if_pos hcn, if_pos hcn]
                    dsimp only
                    rw [ih c (depth + 1)]
                    rfl
                  · rw [if_neg hcn, if_neg hcn]
                    dsimp only
                    by_cases h1 : uk = some "strict"
                    · rw [if_pos h1]
                      rfl
                    · rw [if_neg h1]
                      by_cases h2 : uk = some "passthrough"
                      · rw [if_pos h2]
                        rfl
                      · rw [if_neg h2]
                        rfl
        | array d0 el mn mx ex =>
            dsimp only
            cases el with
            | none =>
                rw [stripDefaults_merge_desc, stripDefaults_mk]
                rfl
            | some itemSchema =>
                dsimp only
                rw [ih itemSchema (depth + 1), stripDefaults_merge_desc,
                  stripDefaults_mk]
                rfl
        | tuple d0 its rst =>
            dsimp only
            cases rst with
            | none =>
                rw [stripDefaults_merge_desc, stripDefaults_mk]
                simp [ih, List.map_map, Function.comp_def]
            | some r =>
                rw [stripDefaults_merge_desc, stripDefaults_mk]
                simp [ih, List.map_map, Function.comp_def]
        | record d0 vt =>
            dsimp only
            cases vt with
            | none => rw [stripDefaults_mk]; rfl
            | some v => rw [stripDefaults_mk]; simp [ih]
        | set d0 vt =>
            dsimp only
            cases vt with
            | none => rw [stripDefaults_mk]; rfl
            | some v => rw [stripDefaults_mk]; simp [ih]

namespace Joi

/-- The type tags whose dispatch always yields a node with a scalar
`type`, so that the null-allowance fold-in widens the type in place
instead of testing emptiness. -/
def joiSafeTypes : List String :=
  ["string", "number", "boolean", "object", "array", "date", "binary"]

/-- A description is null-safe when every nested description that allows
null without the `only` flag carries one of the in-place-widening type
tags, so the nullable fold-in never reaches the emptiness test whose
outcome the option toggles can flip. -/
def nullSafe : JoiDescription → Bool
  | .mk d =>
    (!(d.allow.contains JVal.null) || decide (d.flags.only = some true) ||
      joiSafeTypes.contains d.type) &&
    d.keys.attach.all (fun kv => nullSafe kv.1.2) &&
    d.items.attach.all (fun x => nullSafe x.1) &&
    d.ordered.attach.all (fun x => nullSafe x.1) &&
    d.«matches».attach.all (fun mm =>
      match h : mm.1.schema with
      | some s => nullSafe s
      | none => true) &&
    d.rules.attach.all (fun r =>
      match h : r.1.argValue with
      | some s => nullSafe s
      | none => true)
termination_by x => sizeOf x
decreasing_by
  · have h1 := List.sizeOf_lt_of_mem kv.2
    obtain ⟨⟨k, v⟩, hkv⟩ := kv
    cases d
    simp_all [JoiDescription.mk.sizeOf_spec, JoiDescF.mk.sizeOf_spec,
      Prod.mk.sizeOf_spec]
    omega
  · have h1 := List.sizeOf_lt_of_mem x.2
    obtain ⟨v, hv⟩ := x
    cases d
    simp_all [JoiDescription.mk.sizeOf_spec, JoiDescF.mk.sizeOf_spec]
    omega
  · have h1 := List.sizeOf_lt_of_mem x.2
    obtain ⟨v, hv⟩ := x
    cases d
    simp_all [JoiDescription.mk.sizeOf_spec, JoiDescF.mk.sizeOf_spec]
    omega
  · obtain ⟨⟨msch⟩, hmm2⟩ := mm
    have h1 := List.sizeOf_lt_of_mem hmm2
    dsimp at h
    subst h
    cases d
    simp_all [JoiDescription.mk.sizeOf_spec, JoiDescF.mk.sizeOf_spec,
      JoiMatchF.mk.sizeOf_spec]
    omega
  · obtain ⟨⟨nm, al, ar, av, ab, aval⟩, hr⟩ := r
    have h1 := List.sizeOf_lt_of_mem hr
    dsimp at h
    subst h
    cases d
    simp_all [JoiDescription.mk.sizeOf_spec, JoiDescF.mk.sizeOf_spec,
      JoiRuleF.mk.sizeOf_spec]
    omega

end Joi

namespace Joi

theorem nullSafe_parts {d : JoiDescF JoiDescription}
    (hs : nullSafe (.mk d) = true) :
    (!(d.allow.contains JVal.null) || decide (d.flags.only = some true) ||
      joiSafeTypes.contains d.type) = true ∧
    (∀ kv ∈ d.keys, nullSafe kv.2 = true) ∧
    (∀ x ∈ d.items, nullSafe x = true) ∧
    (∀ x ∈ d.ordered, nullSafe x = true) ∧
    (∀ mm ∈ d.«matches», ∀ s, mm.schema = some s → nullSafe s = true) ∧
    (∀ r ∈ d.rules, ∀ s, r.argValue = some s → nullSafe s = true) := by
  rw [nullSafe.eq_def] at hs
  dsimp only at hs
  simp only [Bool.and_eq_true, List.all_eq_true] at hs
  obtain ⟨⟨⟨⟨⟨h1, h2⟩, h3⟩, h4⟩, h5⟩, h6⟩ := hs
  refine ⟨h1, ?_, ?_, ?_, ?_, ?_⟩
  · intro kv hkv
    exact h2 ⟨kv, hkv⟩ (List.mem_attach _ _)
  · intro x hx
    exact h3 ⟨x, hx⟩ (List.mem_attach _ _)
  · intro x hx
    exact h4 ⟨x, hx⟩ (List.mem_attach _ _)
  · intro mm hmm s hsch
    have h := h5 ⟨mm, hmm⟩ (List.mem_attach _ _)
    split at h
    · rename_i s2 heq
      have h2 := Option.some.inj (hsch.symm.trans heq)
      subst h2
      exact h
    · rename_i heq
      rw [hsch] at heq
      exact Option.noConfusion heq
  · intro r hr s hsch
    have h := h6 ⟨r, hr⟩ (List.mem_attach _ _)
    split at h
    · rename_i s2 heq
      have h2 := Option.some.inj (hsch.symm.trans heq)
      subst h2
      exact h
    · rename_i heq
      rw [hsch] at heq
      exact Option.noConfusion heq

end Joi

namespace Joi

/-- String rules never touch the node-valued fields, the description, the
default or the type. -/
theorem applyStringRule_inert (r : SchemaF SchemaObject)
    (rule : JoiRuleF JoiDescription) :
    (applyStringRule r rule).flat = r.flat ∧
    (applyStringRule r rule).description = r.description ∧
    (applyStringRule r rule).default = r.default ∧
    (applyStringRule r rule).type = r.type := by
  unfold applyStringRule
  split
  all_goals try exact ⟨rfl, rfl, rfl, rfl⟩
  all_goals split
  all_goals try exact ⟨rfl, rfl, rfl, rfl⟩
  all_goals split
  all_goals try exact ⟨rfl, rfl, rfl, rfl⟩
  all_goals split
  all_goals exact ⟨rfl, rfl, rfl, rfl⟩

theorem foldl_applyStringRule_inert (rules : List (JoiRuleF JoiDescription)) :
    ∀ r : SchemaF SchemaObject,
      (rules.foldl applyStringRule r).flat = r.flat ∧
      (rules.foldl applyStringRule r).description = r.description ∧
      (rules.foldl applyStringRule r).default = r.default ∧
      (rules.foldl applyStringRule r).type = r.type := by
  induction rules with
  | nil => intro r; exact ⟨rfl, rfl, rfl, rfl⟩
  | cons c cs ih =>
      intro r
      rw [List.foldl_cons]
      obtain ⟨a1, a2, a3, a4⟩ := ih (applyStringRule r c)
      obtain ⟨b1, b2, b3, b4⟩ := applyStringRule_inert r c
      exact ⟨a1.trans b1, a2.trans b2, a3.trans b3, a4.trans b4⟩

/-- Shape of the Dialect-B string conversion: a flat node typed string
with no description and no default. -/
theorem convertString_shape (dd : JoiDescription) (o : ConvOptions) :
    (convertString dd o).f.flat ∧
    (convertString dd o).f.description = none ∧
    (convertString dd o).f.default = none ∧
    (convertString dd o).f.type = some (.single "string") := by
  unfold convertString
  rw [SchemaObject.f_mk]
  obtain ⟨a1, a2, a3, a4⟩ :=
    foldl_applyStringRule_inert dd.rules { type := some (.single "string") }
  refine ⟨?_, ?_, ?_, ?_⟩
  · rw [a1]; exact ⟨rfl, rfl, rfl, rfl, rfl, rfl, rfl⟩
  · rw [a2]
  · rw [a3]
  · rw [a4]

theorem convertString_opts (dd : JoiDescription) (o1 o2 : ConvOptions) :
    convertString dd o1 = convertString dd o2 := rfl

/-- Number rules never touch the node-valued fields, the description or
the default. -/
theorem applyNumberRule_inert (acc : SchemaF SchemaObject × Bool)
    (rule : JoiRuleF JoiDescription) :
    (applyNumberRule acc rule).1.flat = acc.1.flat ∧
    (applyNumberRule acc rule).1.description = acc.1.description ∧
    (applyNumberRule acc rule).1.default = acc.1.default := by
  obtain ⟨r, flag⟩ := acc
  unfold applyNumberRule
  dsimp only
  split
  all_goals exact ⟨rfl, rfl, rfl⟩

theorem foldl_applyNumberRule_inert (rules : List (JoiRuleF JoiDescription)) :
    ∀ acc : SchemaF SchemaObject × Bool,
      (rules.foldl applyNumberRule acc).1.flat = acc.1.flat ∧
      (rules.foldl applyNumberRule acc).1.description = acc.1.description ∧
      (rules.foldl applyNumberRule acc).1.default = acc.1.default := by
  induction rules with
  | nil => intro acc; exact ⟨rfl, rfl, rfl⟩
  | cons c cs ih =>
      intro acc
      rw [List.foldl_cons]
      obtain ⟨a1, a2, a3⟩ := ih (applyNumberRule acc c)
      obtain ⟨b1, b2, b3⟩ := applyNumberRule_inert acc c
      exact ⟨a1.trans b1, a2.trans b2, a3.trans b3⟩

/-- Shape of the Dialect-B number conversion. -/
theorem convertNumber_shape (dd : JoiDescription) :
    (convertNumber dd).f.flat ∧
    (convertNumber dd).f.description = none ∧
    (convertNumber dd).f.default = none ∧
    ∃ t, (convertNumber dd).f.type = some (.single t) := by
  unfold convertNumber
  rw [SchemaObject.f_mk]
  obtain ⟨a1, a2, a3⟩ := foldl_applyNumberRule_inert dd.rules ({}, false)
  refine ⟨?_, ?_, ?_, ⟨_, rfl⟩⟩
  · show (dd.rules.foldl applyNumberRule ({}, false)).1.flat
    rw [a1]
    exact ⟨rfl, rfl, rfl, rfl, rfl, rfl, rfl⟩
  · show (dd.rules.foldl applyNumberRule ({}, false)).1.description = none
    rw [a2]
  · show (dd.rules.foldl applyNumberRule ({}, false)).1.default = none
    rw [a3]

/-- Array length/uniqueness rules never touch the node-valued fields, the
description, the default or the type. -/
theorem applyArrayRule_inert (r : SchemaF SchemaObject)
    (rule : JoiRuleF JoiDescription) :
    (applyArrayRule r rule).flat = r.flat ∧
    (applyArrayRule r rule).description = r.description ∧
    (applyArrayRule r rule).default = r.default ∧
    (applyArrayRule r rule).type = r.type := by
  unfold applyArrayRule
  split
  all_goals exact ⟨rfl, rfl, rfl, rfl⟩

theorem foldl_applyArrayRule_inert (rules : List (JoiRuleF JoiDescription)) :
    ∀ r : SchemaF SchemaObject,
      (rules.foldl applyArrayRule r).flat = r.flat ∧
      (rules.foldl applyArrayRule r).description = r.description ∧
      (rules.foldl applyArrayRule r).default = r.default ∧
      (rules.foldl applyArrayRule r).type = r.type := by
  induction rules with
  | nil => intro r; exact ⟨rfl, rfl, rfl, rfl⟩
  | cons c cs ih =>
      intro r
      rw [List.foldl_cons]
      obtain ⟨a1, a2, a3, a4⟩ := ih (applyArrayRule r c)
      obtain ⟨b1, b2, b3, b4⟩ := applyArrayRule_inert r c
      exact ⟨a1.trans b1, a2.trans b2, a3.trans b3, a4.trans b4⟩

/-- One array rule commutes with presetting the `items` field. -/
theorem applyArrayRule_set_items (Y : SchemaF SchemaObject)
    (v : Option (BoolOr SchemaObject)) (rule : JoiRuleF JoiDescription) :
    applyArrayRule { Y with items := v } rule =
      { applyArrayRule Y rule with items := v } := by
  unfold applyArrayRule
  split
  all_goals rfl

/-- The array rule fold commutes with presetting the `items` field. -/
theorem foldl_applyArrayRule_set_items (rules : List (JoiRuleF JoiDescription)) :
    ∀ (Y : SchemaF SchemaObject) (v : Option (BoolOr SchemaObject)),
      rules.foldl applyArrayRule { Y with items := v } =
        { rules.foldl applyArrayRule Y with items := v } := by
  induction rules with
  | nil => intro Y v; rfl
  | cons c cs ih =>
      intro Y v
      rw [List.foldl_cons, applyArrayRule_set_items, ih, List.foldl_cons]

end Joi

/-- Spreading a metadata record (description and default only). -/
theorem SchemaF.merge_metaF (d : Option String) (v : Option JVal)
    (b : SchemaF SchemaObject) :
    SchemaF.merge { description := d, default := v } b =
      { b with description := b.description <|> d, default := b.default <|> v } := by
  cases b; simp [SchemaF.merge]

/-- Spreading a default-only record. -/
theorem SchemaF.merge_defF (v : Option JVal) (b : SchemaF SchemaObject) :
    SchemaF.merge { default := v } b =
      { b with default := b.default <|> v } := by
  cases b; simp [SchemaF.merge]

theorem stripDescriptions_merge_meta (D : Option String) (V : Option JVal)
    (X : SchemaF SchemaObject) :
    stripDescriptions (.mk (SchemaF.merge { description := D, default := V } X)) =
      .mk (SchemaF.merge { default := V } (stripDescriptions (.mk X)).f) := by
  rw [SchemaF.merge_metaF, SchemaF.merge_defF, stripDescriptions_mk,
    stripDescriptions_mk]
  rfl

theorem stripDescriptions_merge_meta_set_type (D : Option String) (V : Option JVal)
    (X : SchemaF SchemaObject) (t : Option TypeField) :
    stripDescriptions (.mk { SchemaF.merge { description := D, default := V } X with
        type := t }) =
      .mk { SchemaF.merge { default := V } (stripDescriptions (.mk X)).f with
        type := t } := by
  rw [SchemaF.merge_metaF, SchemaF.merge_defF, stripDescriptions_mk,
    stripDescriptions_mk]
  rfl

theorem stripDefaults_merge_meta (D : Option String) (V : Option JVal)
    (X : SchemaF SchemaObject) :
    stripDefaults (.mk (SchemaF.merge { description := D, default := V } X)) =
      .mk (SchemaF.merge { description := D } (stripDefaults (.mk X)).f) := by
  rw [SchemaF.merge_metaF, SchemaF.merge_descF, stripDefaults_mk, stripDefaults_mk]
  rfl

theorem stripDefaults_merge_meta_set_type (D : Option String) (V : Option JVal)
    (X : SchemaF SchemaObject) (t : Option TypeField) :
    stripDefaults (.mk { SchemaF.merge { description := D, default := V } X with
        type := t }) =
      .mk { SchemaF.merge { description := D } (stripDefaults (.mk X)).f with
        type := t } := by
  rw [SchemaF.merge_metaF, SchemaF.merge_descF, stripDefaults_mk, stripDefaults_mk]
  rfl

namespace Joi

/-- The nullable fold-in commutes with stripping descriptions when the
dispatched node is guaranteed a scalar type on the null-allowing path. -/
theorem joiApplyNullable_stripDescriptions (D : Option String) (V : Option JVal)
    (tT : SchemaObject) (h o : Bool)
    (hsafe : (h && !o) = true → ∃ t, tT.f.type = some (.single t)) :
    joiApplyNullable { default := V } (stripDescriptions tT) h o =
      stripDescriptions (joiApplyNullable { description := D, default := V } tT h o) := by
  unfold joiApplyNullable
  dsimp only
  by_cases hho : (h && !o) = true
  · rw [if_pos hho, if_pos hho]
    obtain ⟨t, ht⟩ := hsafe hho
    cases tT with
    | mk gT =>
        simp only [SchemaObject.f_mk] at ht ⊢
        have hsc1 : (SchemaF.merge { default := V }
            (stripDescriptions (SchemaObject.mk gT)).f).type = some (.single t) := by
          rw [SchemaF.merge_defF]
          show (stripDescriptions (SchemaObject.mk gT)).f.type = some (.single t)
          rw [stripDescriptions_type, SchemaObject.f_mk, ht]
        have hsc2 : (SchemaF.merge { description := D, default := V } gT).type =
            some (.single t) := by
          rw [SchemaF.merge_metaF]
          show gT.type = some (.single t)
          exact ht
        rw [hsc1, hsc2]
        dsimp only
        rw [stripDescriptions_merge_meta_set_type]
  · rw [if_neg hho, if_neg hho]
    cases tT with
    | mk gT =>
        simp only [SchemaObject.f_mk]
        rw [stripDescriptions_merge_meta]

/-- The nullable fold-in commutes with stripping defaults when the
dispatched node is guaranteed a scalar type on the null-allowing path. -/
theorem joiApplyNullable_stripDefaults (D : Option String) (V : Option JVal)
    (tT : SchemaObject) (h o : Bool)
    (hsafe : (h && !o) = true → ∃ t, tT.f.type = some (.single t)) :
    joiApplyNullable { description := D } (stripDefaults tT) h o =
      stripDefaults (joiApplyNullable { description := D, default := V } tT h o) := by
  unfold joiApplyNullable
  dsimp only
  by_cases hho : (h && !o) = true
  · rw [if_pos hho, if_pos hho]
    obtain ⟨t, ht⟩ := hsafe hho
    cases tT with
    | mk gT =>
        simp only [SchemaObject.f_mk] at ht ⊢
        have hsc1 : (SchemaF.merge { description := D }
            (stripDefaults (SchemaObject.mk gT)).f).type = some (.single t) := by
          rw [SchemaF.merge_descF]
          show (stripDefaults (SchemaObject.mk gT)).f.type = some (.single t)
          rw [stripDefaults_type, SchemaObject.f_mk, ht]
        have hsc2 : (SchemaF.merge { description := D, default := V } gT).type =
            some (.single t) := by
          rw [SchemaF.merge_metaF]
          show gT.type = some (.single t)
          exact ht
        rw [hsc1, hsc2]
        dsimp only
        rw [stripDefaults_merge_meta_set_type]
  · rw [if_neg hho, if_neg hho]
    cases tT with
    | mk gT =>
        simp only [SchemaObject.f_mk]
        rw [stripDefaults_merge_meta]

end Joi

namespace Joi

/-- Dialect-B metadata is a description/default-only record. -/
theorem joiMetadata_shape (dd : JoiDescription) (o : ConvOptions) :
    joiMetadata dd o = { description := (joiMetadata dd o).description,
                         default := (joiMetadata dd o).default } := by
  unfold joiMetadata
  dsimp only
  split <;> split <;> rfl

theorem joiMetadata_false_description (dd : JoiDescription) (v : Bool) (m : Nat) :
    (joiMetadata dd ⟨false, v, m⟩).description = none := by
  unfold joiMetadata
  dsimp only
  simp only [Bool.false_and, Bool.false_eq_true, if_false]
  split <;> rfl

theorem joiMetadata_default_opts (dd : JoiDescription) (b : Bool) (m : Nat) :
    (joiMetadata dd ⟨false, b, m⟩).default = (joiMetadata dd ⟨true, b, m⟩).default := by
  unfold joiMetadata
  dsimp only
  simp only [Bool.false_and, Bool.true_and, Bool.false_eq_true, if_false]
  by_cases hb : (b && dd.flags.default.isSome) = true
  · rw [if_pos hb, if_pos hb]
  · rw [if_neg hb, if_neg hb]
    split <;> rfl

theorem joiMetadata_false_default (dd : JoiDescription) (b : Bool) (m : Nat) :
    (joiMetadata dd ⟨b, false, m⟩).default = none := by
  unfold joiMetadata
  dsimp only
  simp only [Bool.false_and, Bool.false_eq_true, if_false]
  split <;> rfl

theorem joiMetadata_description_opts (dd : JoiDescription) (b : Bool) (m : Nat) :
    (joiMetadata dd ⟨b, false, m⟩).description =
      (joiMetadata dd ⟨b, true, m⟩).description := by
  unfold joiMetadata
  dsimp only
  simp only [Bool.false_and, Bool.true_and, Bool.false_eq_true, if_false]
  by_cases hd : (dd.flags.default.isSome = true)
  · simp only [hd, if_true]
  · simp only [hd]
    split <;> rfl

theorem joiMetadata_descToggle (dd : JoiDescription) (b : Bool) (m : Nat) :
    ∃ D V, joiMetadata dd ⟨true, b, m⟩ =
             { description := D, default := V } ∧
           joiMetadata dd ⟨false, b, m⟩ =
             ({ default := V } : SchemaF SchemaObject) := by
  refine ⟨(joiMetadata dd ⟨true, b, m⟩).description,
    (joiMetadata dd ⟨true, b, m⟩).default, joiMetadata_shape dd _, ?_⟩
  rw [joiMetadata_shape dd ⟨false, b, m⟩, joiMetadata_false_description,
    joiMetadata_default_opts]

theorem joiMetadata_defToggle (dd : JoiDescription) (b : Bool) (m : Nat) :
    ∃ D V, joiMetadata dd ⟨b, true, m⟩ =
             { description := D, default := V } ∧
           joiMetadata dd ⟨b, false, m⟩ =
             ({ description := D } : SchemaF SchemaObject) := by
  refine ⟨(joiMetadata dd ⟨b, true, m⟩).description,
    (joiMetadata dd ⟨b, true, m⟩).default, joiMetadata_shape dd _, ?_⟩
  rw [joiMetadata_shape dd ⟨b, false, m⟩, joiMetadata_false_default,
    joiMetadata_description_opts]

end Joi

theorem stripDescriptions_anyOfNode (l : List SchemaObject) :
    stripDescriptions (.mk { anyOf := some l }) =
      .mk { anyOf := some (l.map stripDescriptions) } := by
  rw [stripDescriptions_mk]
  rfl

theorem stripDefaults_anyOfNode (l : List SchemaObject) :
    stripDefaults (.mk { anyOf := some l }) =
      .mk { anyOf := some (l.map stripDefaults) } := by
  rw [stripDefaults_mk]
  rfl

theorem stripDescriptions_set_items_schema (P : SchemaF SchemaObject)
    (hflat : P.flat) (hdesc : P.description = none) (s : SchemaObject) :
    stripDescriptions (.mk { P with items := some (.schema s) }) =
      .mk { P with items := some (.schema (stripDescriptions s)) } := by
  obtain ⟨h1, h2, h3, h4, h5, h6, h7⟩ := hflat
  rw [stripDescriptions_mk]
  simp [h1, h2, h3, h4, h5, h7, hdesc]

theorem stripDefaults_set_items_schema (P : SchemaF SchemaObject)
    (hflat : P.flat) (hdef : P.default = none) (s : SchemaObject) :
    stripDefaults (.mk { P with items := some (.schema s) }) =
      .mk { P with items := some (.schema (stripDefaults s)) } := by
  obtain ⟨h1, h2, h3, h4, h5, h6, h7⟩ := hflat
  rw [stripDefaults_mk]
  simp [h1, h2, h3, h4, h5, h7, hdef]

theorem stripDescriptions_meta_enum (D : Option String) (V : Option JVal)
    (E : List JVal) :
    stripDescriptions (.mk { ({ description := D, default := V } :
        SchemaF SchemaObject) with enum := some E }) =
      .mk { ({ default := V } : SchemaF SchemaObject) with enum := some E } := by
  rw [stripDescriptions_mk]
  rfl

theorem stripDefaults_meta_enum (D : Option String) (V : Option JVal)
    (E : List JVal) :
    stripDefaults (.mk { ({ description := D, default := V } :
        SchemaF SchemaObject) with enum := some E }) =
      .mk { ({ description := D } : SchemaF SchemaObject) with enum := some E } := by
  rw [stripDefaults_mk]
  rfl

namespace Joi

theorem joiApplyNullable_stripDescriptions2 (D : Option String) (V : Option JVal)
    (tF tT : SchemaObject) (h o : Bool)
    (hrel : tF = stripDescriptions tT)
    (hsafe : (h && !o) = true → ∃ t, tT.f.type = some (.single t)) :
    joiApplyNullable { default := V } tF h o =
      stripDescriptions (joiApplyNullable { description := D, default := V } tT h o) := by
  rw [hrel]
  exact joiApplyNullable_stripDescriptions D V tT h o hsafe

theorem joiApplyNullable_stripDefaults2 (D : Option String) (V : Option JVal)
    (tF tT : SchemaObject) (h o : Bool)
    (hrel : tF = stripDefaults tT)
    (hsafe : (h && !o) = true → ∃ t, tT.f.type = some (.single t)) :
    joiApplyNullable { description := D } tF h o =
      stripDefaults (joiApplyNullable { description := D, default := V } tT h o) := by
  rw [hrel]
  exact joiApplyNullable_stripDefaults D V tT h o hsafe

end Joi

namespace Joi

theorem nullSafe_parts2 (dd : JoiDescription) (hs : nullSafe dd = true) :
    (!(dd.allow.contains JVal.null) || decide (dd.flags.only = some true) ||
      joiSafeTypes.contains dd.type) = true ∧
    (∀ kv ∈ dd.keys, nullSafe kv.2 = true) ∧
    (∀ x ∈ dd.items, nullSafe x = true) ∧
    (∀ x ∈ dd.ordered, nullSafe x = true) ∧
    (∀ mm ∈ dd.«matches», ∀ s, mm.schema = some s → nullSafe s = true) ∧
    (∀ r ∈ dd.rules, ∀ s, r.argValue = some s → nullSafe s = true) := by
  cases dd with
  | mk d => exact nullSafe_parts hs

end Joi

set_option maxHeartbeats 4000000 in
theorem Joi.convertJoiDescriptionFuel_stripDescriptions (b : Bool) (m : Nat)
    (fuel : Nat) :
    ∀ (dd : Joi.JoiDescription) (depth : Nat), Joi.nullSafe dd = true →
      Joi.convertJoiDescriptionFuel fuel dd ⟨false, b, m⟩ depth =
        stripDescriptions (Joi.convertJoiDescriptionFuel fuel dd ⟨true, b, m⟩ depth) := by
  induction fuel with
  | zero =>
      intro dd depth _
      show emptyNode = stripDescriptions emptyNode
      rw [stripDescriptions_emptyNode]
  | succ f ih =>
      intro dd depth hsafe
      obtain ⟨hs1, hs2, hs3, hs4, hs5, hs6⟩ := Joi.nullSafe_parts2 dd hsafe
      obtain ⟨D, V, hT, hF⟩ := Joi.joiMetadata_descToggle dd b m
      simp only [Joi.convertJoiDescriptionFuel]
      by_cases hdep : depth > m
      · rw [if_pos hdep, if_pos hdep, stripDescriptions_emptyNode]
      · rw [if_neg hdep, if_neg hdep]
        simp only [hT, hF]
        by_cases henum :
            (decide (dd.flags.only = some true) && !dd.allow.isEmpty) = true
        · rw [if_pos henum, if_pos henum]
          by_cases hnull : dd.allow.contains JVal.null = true
          · rw [if_pos hnull, if_pos hnull, stripDescriptions_meta_enum]
          · rw [if_neg hnull, if_neg hnull, stripDescriptions_meta_enum]
        · rw [if_neg henum, if_neg henum]
          refine Joi.joiApplyNullable_stripDescriptions2 D V _ _ _ _ ?_ ?_
          · -- the dispatched nodes strip-commute
            split
            · -- string
              rw [Joi.convertString_opts dd ⟨false, b, m⟩ ⟨true, b, m⟩]
              obtain ⟨s1, s2, s3, s4⟩ := Joi.convertString_shape dd ⟨true, b, m⟩
              rw [← SchemaObject.mk_f (Joi.convertString dd ⟨true, b, m⟩),
                stripDescriptions_flat _ s1 s2]
            · -- number
              obtain ⟨s1, s2, s3, s4⟩ := Joi.convertNumber_shape dd
              rw [← SchemaObject.mk_f (Joi.convertNumber dd),
                stripDescriptions_flat _ s1 s2]
            · -- boolean
              unfold Joi.convertBoolean
              rw [stripDescriptions_flat _ ⟨rfl, rfl, rfl, rfl, rfl, rfl, rfl⟩ rfl]
            · -- object
              rw [stripDescriptions_mk]
              congr 1
              congr 1
              all_goals try rfl
              · cases hk : dd.keys with
                | nil => rfl
                | cons hd tl =>
                    rw [hk] at hs2
                    have hIE : ∀ {β : Type} (fn : String × Joi.JoiDescription → β),
                        (List.map fn (hd :: tl)).isEmpty = false := fun _ => rfl
                    rw [hIE, hIE]
                    simp only [Bool.false_eq_true, if_false]
                    simp only [Option.map_some']
                    congr 1
                    rw [List.map_map]
                    apply List.map_congr_left
                    intro kv hkv
                    dsimp only [Function.comp_apply]
                    refine Prod.ext rfl ?_
                    exact ih kv.2 (depth + 1) (hs2 kv hkv)
              · cases hh : (dd.rules.filter (fun r => r.name == "pattern")).head? with
                | none =>
                    dsimp only
                    by_cases hau :
                        (dd.flags.allowUnknown <|> dd.flags.unknown) = some false
                    · rw [if_pos hau]
                      rfl
                    · rw [if_neg hau]
                      rfl
                | some r =>
                    dsimp only
                    cases harv : r.argValue with
                    | none =>
                        dsimp only
                        by_cases hau :
                            (dd.flags.allowUnknown <|> dd.flags.unknown) = some false
                        · rw [if_pos hau]
                          rfl
                        · rw [if_neg hau]
                          rfl
                    | some valueDesc =>
                        dsimp only
                        have hh2 : r ∈ (dd.rules.filter
                            (fun r => r.name == "pattern")).head? := by
                          rw [hh]
                          exact rfl
                        have hmem : r ∈ dd.rules :=
                          List.mem_of_mem_filter (List.mem_of_mem_head? hh2)
                        rw [ih valueDesc (depth + 1) (hs6 r hmem valueDesc harv)]
                        rfl
            · -- array
              by_cases hord : (!dd.ordered.isEmpty) = true
              · rw [if_pos hord, if_pos hord]
                rw [stripDescriptions_mk]
                congr 1
                congr 1
                all_goals try rfl
                simp only [Option.map_some']
                congr 1
                rw [List.map_map]
                apply List.map_congr_left
                intro x hx
                exact ih x (depth + 1) (hs4 x hx)
              · rw [if_neg hord, if_neg hord]
                have hin := Joi.foldl_applyArrayRule_inert dd.rules
                    ({ type := some (.single "array") } : SchemaF SchemaObject)
                obtain ⟨a1, a2, a3, a4⟩ := hin
                have hfl : (List.foldl Joi.applyArrayRule
                    { type := some (.single "array") } dd.rules).flat := by
                  rw [a1]
                  exact ⟨rfl, rfl, rfl, rfl, rfl, rfl, rfl⟩
                have hde : (List.foldl Joi.applyArrayRule
                    { type := some (.single "array") } dd.rules).description = none := by
                  rw [a2]
                cases hit : dd.items with
                | nil =>
                    dsimp only
                    rw [stripDescriptions_flat _ hfl hde]
                | cons a tl =>
                    cases tl with
                    | nil =>
                        dsimp only
                        rw [Joi.foldl_applyArrayRule_set_items dd.rules
                            { type := some (.single "array") }
                            (some (.schema (Joi.convertJoiDescriptionFuel f a
                              ⟨false, b, m⟩ (depth + 1)))),
                          Joi.foldl_applyArrayRule_set_items dd.rules
                            { type := some (.single "array") }
                            (some (.schema (Joi.convertJoiDescriptionFuel f a
                              ⟨true, b, m⟩ (depth + 1)))),
                          ih a (depth + 1)
                            (hs3 a (by rw [hit]; exact List.mem_cons_self a [])),
                          stripDescriptions_set_items_schema _ hfl hde]
                    | cons c tl2 =>
                        dsimp only
                        rw [Joi.foldl_applyArrayRule_set_items dd.rules
                            { type := some (.single "array") }
                            (some (.schema (SchemaObject.mk
                              { anyOf := some ((a :: c :: tl2).map (fun item =>
                                Joi.convertJoiDescriptionFuel f item
                                  ⟨false, b, m⟩ (depth + 1))) }))),
                          Joi.foldl_applyArrayRule_set_items dd.rules
                            { type := some (.single "array") }
                            (some (.schema (SchemaObject.mk
                              { anyOf := some ((a :: c :: tl2).map (fun item =>
                                Joi.convertJoiDescriptionFuel f item
                                  ⟨true, b, m⟩ (depth + 1))) }))),
                          stripDescriptions_set_items_schema _ hfl hde,
                          stripDescriptions_anyOfNode]
                        have hmap : List.map (fun item =>
                              Joi.convertJoiDescriptionFuel f item ⟨false, b, m⟩
                                (depth + 1)) (a :: c :: tl2) =
                            (List.map (fun item =>
                              Joi.convertJoiDescriptionFuel f item ⟨true, b, m⟩
                                (depth + 1)) (a :: c :: tl2)).map stripDescriptions := by
                          rw [List.map_map]
                          apply List.map_congr_left
                          intro x hx
                          exact ih x (depth + 1) (hs3 x (by rw [hit]; exact hx))
                        rw [hmap]
            · -- alternatives
              have hfm : dd.«matches».filterMap (fun mm => mm.schema.map (fun s =>
                    Joi.convertJoiDescriptionFuel f s ⟨false, b, m⟩ (depth + 1))) =
                  (dd.«matches».filterMap (fun mm => mm.schema.map (fun s =>
                    Joi.convertJoiDescriptionFuel f s ⟨true, b, m⟩ (depth + 1)))).map
                    stripDescriptions := by
                rw [List.map_filterMap]
                apply List.filterMap_congr
                intro mm hmm2
                cases hsch : mm.schema with
                | none => rfl
                | some s =>
                    simp only [Option.map_some']
                    rw [ih s (depth + 1) (hs5 mm hmm2 s hsch)]
              rw [hfm]
              cases hlist : dd.«matches».filterMap (fun mm => mm.schema.map (fun s =>
                  Joi.convertJoiDescriptionFuel f s ⟨true, b, m⟩ (depth + 1))) with
              | nil =>
                  dsimp only
                  rw [stripDescriptions_emptyNode]
                  simp only [List.map_nil]
              | cons a tl =>
                  cases tl with
                  | nil => simp only [List.map_cons, List.map_nil]
                  | cons c tl2 =>
                      simp only [List.map_cons]
                      rw [stripDescriptions_anyOfNode]
                      simp only [List.map_cons]
            · -- date
              rw [stripDescriptions_flat _ ⟨rfl, rfl, rfl, rfl, rfl, rfl, rfl⟩ rfl]
            · -- binary
              rw [stripDescriptions_flat _ ⟨rfl, rfl, rfl, rfl, rfl, rfl, rfl⟩ rfl]
            · -- unrecognized tag
              rw [stripDescriptions_emptyNode]
          · -- the dispatched node has a scalar type on the null-allowing path
            intro hho
            simp only [Bool.and_eq_true] at hho
            obtain ⟨hc, hno⟩ := hho
            split
            · exact ⟨"string", (Joi.convertString_shape dd _).2.2.2⟩
            · obtain ⟨_, _, _, t, ht⟩ := Joi.convertNumber_shape dd
              exact ⟨t, ht⟩
            · exact ⟨"boolean", rfl⟩
            · exact ⟨"object", rfl⟩
            · -- array
              split
              · exact ⟨"array", rfl⟩
              · refine ⟨"array", ?_⟩
                show (List.foldl Joi.applyArrayRule _ dd.rules).type =
                  some (.single "array")
                rw [(Joi.foldl_applyArrayRule_inert dd.rules _).2.2.2]
                split <;> rfl
            · -- alternatives: impossible by null-safety
              exfalso
              rename_i heq
              have honly : dd.flags.only ≠ some true := by
                intro hcon
                rw [hcon] at hno
                simp at hno
              simp only [hc, Bool.not_true, Bool.false_or, Bool.or_eq_true,
                decide_eq_true_eq] at hs1
              rcases hs1 with h1 | h1
              · exact honly h1
              · rw [heq] at h1
                simp [Joi.joiSafeTypes] at h1
            · exact ⟨"string", rfl⟩
            · exact ⟨"string", rfl⟩
            · -- unrecognized tag: impossible by null-safety
              exfalso
              have honly : dd.flags.only ≠ some true := by
                intro hcon
                rw [hcon] at hno
                simp at hno
              simp only [hc, Bool.not_true, Bool.false_or, Bool.or_eq_true,
                decide_eq_true_eq] at hs1
              rcases hs1 with h1 | h1
              · exact honly h1
              · simp [Joi.joiSafeTypes] at h1
                simp_all

set_option maxHeartbeats 4000000 in
theorem Joi.convertJoiDescriptionFuel_stripDefaults (b : Bool) (m : Nat)
    (fuel : Nat) :
    ∀ (dd : Joi.JoiDescription) (depth : Nat), Joi.nullSafe dd = true →
      Joi.convertJoiDescriptionFuel fuel dd ⟨b, false, m⟩ depth =
        stripDefaults (Joi.convertJoiDescriptionFuel fuel dd ⟨b, true, m⟩ depth) := by
  induction fuel with
  | zero =>
      intro dd depth _
      show emptyNode = stripDefaults emptyNode
      rw [stripDefaults_emptyNode]
  | succ f ih =>
      intro dd depth hsafe
      obtain ⟨hs1, hs2, hs3, hs4, hs5, hs6⟩ := Joi.nullSafe_parts2 dd hsafe
      obtain ⟨D, V, hT, hF⟩ := Joi.joiMetadata_defToggle dd b m
      simp only [Joi.convertJoiDescriptionFuel]
      by_cases hdep : depth > m
      · rw [if_pos hdep, if_pos hdep, stripDefaults_emptyNode]
      · rw [if_neg hdep, if_neg hdep]
        simp only [hT, hF]
        by_cases henum :
            (decide (dd.flags.only = some true) && !dd.allow.isEmpty) = true
        · rw [if_pos henum, if_pos henum]
          by_cases hnull : dd.allow.contains JVal.null = true
          · rw [if_pos hnull, if_pos hnull, stripDefaults_meta_enum]
          · rw [if_neg hnull, if_neg hnull, stripDefaults_meta_enum]
        · rw [if_neg henum, if_neg henum]
          refine Joi.joiApplyNullable_stripDefaults2 D V _ _ _ _ ?_ ?_
          · split
            · -- string
              rw [Joi.convertString_opts dd ⟨b, false, m⟩ ⟨b, true, m⟩]
              obtain ⟨s1, s2, s3, s4⟩ := Joi.convertString_shape dd ⟨b, true, m⟩
              rw [← SchemaObject.mk_f (Joi.convertString dd ⟨b, true, m⟩),
                stripDefaults_flat _ s1 s3]
            · -- number
              obtain ⟨s1, s2, s3, s4⟩ := Joi.convertNumber_shape dd
              rw [← SchemaObject.mk_f (Joi.convertNumber dd),
                stripDefaults_flat _ s1 s3]
            · -- boolean
              unfold Joi.convertBoolean
              rw [stripDefaults_flat _ ⟨rfl, rfl, rfl, rfl, rfl, rfl, rfl⟩ rfl]
            · -- object
              rw [stripDefaults_mk]
              congr 1
              congr 1
              all_goals try rfl
              · cases hk : dd.keys with
                | nil => rfl
                | cons hd tl =>
                    rw [hk] at hs2
                    have hIE : ∀ {β : Type} (fn : String × Joi.JoiDescription → β),
                        (List.map fn (hd :: tl)).isEmpty = false := fun _ => rfl
                    rw [hIE, hIE]
                    simp only [Bool.false_eq_true, if_false]
                    simp only [Option.map_some']
                    congr 1
                    rw [List.map_map]
                    apply List.map_congr_left
                    intro kv hkv
                    dsimp only [Function.comp_apply]
                    refine Prod.ext rfl ?_
                    exact ih kv.2 (depth + 1) (hs2 kv hkv)
              · cases hh : (dd.rules.filter (fun r => r.name == "pattern")).head? with
                | none =>
                    dsimp only
                    by_cases hau :
                        (dd.flags.allowUnknown <|> dd.flags.unknown) = some false
                    · rw [if_pos hau]
                      rfl
                    · rw [if_neg hau]
                      rfl
                | some r =>
                    dsimp only
                    cases harv : r.argValue with
                    | none =>
                        dsimp only
                        by_cases hau :
                            (dd.flags.allowUnknown <|> dd.flags.unknown) = some false
                        · rw [if_pos hau]
                          rfl
                        · rw [if_neg hau]
                          rfl
                    | some valueDesc =>
                        dsimp only
                        have hh2 : r ∈ (dd.rules.filter
                            (fun r => r.name == "pattern")).head? := by
                          rw [hh]
                          exact rfl
                        have hmem : r ∈ dd.rules :=
                          List.mem_of_mem_filter (List.mem_of_mem_head? hh2)
                        rw [ih valueDesc (depth + 1) (hs6 r hmem valueDesc harv)]
                        rfl
            · -- array
              by_cases hord : (!dd.ordered.isEmpty) = true
              · rw [if_pos hord, if_pos hord]
                rw [stripDefaults_mk]
                congr 1
                congr 1
                all_goals try rfl
                simp only [Option.map_some']
                congr 1
                rw [List.map_map]
                apply List.map_congr_left
                intro x hx
                exact ih x (depth + 1) (hs4 x hx)
              · rw [if_neg hord, if_neg hord]
                have hin := Joi.foldl_applyArrayRule_inert dd.rules
                    ({ type := some (.single "array") } : SchemaF SchemaObject)
                obtain ⟨a1, a2, a3, a4⟩ := hin
                have hfl : (List.foldl Joi.applyArrayRule
                    { type := some (.single "array") } dd.rules).flat := by
                  rw [a1]
                  exact ⟨rfl, rfl, rfl, rfl, rfl, rfl, rfl⟩
                have hde : (List.foldl Joi.applyArrayRule
                    { type := some (.single "array") } dd.rules).default = none := by
                  rw [a3]
                cases hit : dd.items with
                | nil =>
                    dsimp only
                    rw [stripDefaults_flat _ hfl hde]
                | cons a tl =>
                    cases tl with
                    | nil =>
                        dsimp only
                        rw [Joi.foldl_applyArrayRule_set_items dd.rules
                            { type := some (.single "array") }
                            (some (.schema (Joi.convertJoiDescriptionFuel f a
                              ⟨b, false, m⟩ (depth + 1)))),
                          Joi.foldl_applyArrayRule_set_items dd.rules
                            { type := some (.single "array") }
                            (some (.schema (Joi.convertJoiDescriptionFuel f a
                              ⟨b, true, m⟩ (depth + 1)))),
                          ih a (depth + 1)
                            (hs3 a (by rw [hit]; exact List.mem_cons_self a [])),
                          stripDefaults_set_items_schema _ hfl hde]
                    | cons c tl2 =>
                        dsimp only
                        rw [Joi.foldl_applyArrayRule_set_items dd.rules
                            { type := some (.single "array") }
                            (some (.schema (SchemaObject.mk
                              { anyOf := some ((a :: c :: tl2).map (fun item =>
                                Joi.convertJoiDescriptionFuel f item
                                  ⟨b, false, m⟩ (depth + 1))) }))),
                          Joi.foldl_applyArrayRule_set_items dd.rules
                            { type := some (.single "array") }
                            (some (.schema (SchemaObject.mk
                              { anyOf := some ((a :: c :: tl2).map (fun item =>
                                Joi.convertJoiDescriptionFuel f item
                                  ⟨b, true, m⟩ (depth + 1))) }))),
                          stripDefaults_set_items_schema _ hfl hde,
                          stripDefaults_anyOfNode]
                        have hmap : List.map (fun item =>
                              Joi.convertJoiDescriptionFuel f item ⟨b, false, m⟩
                                (depth + 1)) (a :: c :: tl2) =
                            (List.map (fun item =>
                              Joi.convertJoiDescriptionFuel f item ⟨b, true, m⟩
                                (depth + 1)) (a :: c :: tl2)).map stripDefaults := by
                          rw [List.map_map]
                          apply List.map_congr_left
                          intro x hx
                          exact ih x (depth + 1) (hs3 x (by rw [hit]; exact hx))
                        rw [hmap]
            · -- alternatives
              have hfm : dd.«matches».filterMap (fun mm => mm.schema.map (fun s =>
                    Joi.convertJoiDescriptionFuel f s ⟨b, false, m⟩ (depth + 1))) =
                  (dd.«matches».filterMap (fun mm => mm.schema.map (fun s =>
                    Joi.convertJoiDescriptionFuel f s ⟨b, true, m⟩ (depth + 1)))).map
                    stripDefaults := by
                rw [List.map_filterMap]
                apply List.filterMap_congr
                intro mm hmm2
                cases hsch : mm.schema with
                | none => rfl
                | some s =>
                    simp only [Option.map_some']
                    rw [ih s (depth + 1) (hs5 mm hmm2 s hsch)]
              rw [hfm]
              cases hlist : dd.«matches».filterMap (fun mm => mm.schema.map (fun s =>
                  Joi.convertJoiDescriptionFuel f s ⟨b, true, m⟩ (depth + 1))) with
              | nil =>
                  dsimp only
                  rw [stripDefaults_emptyNode]
                  simp only [List.map_nil]
              | cons a tl =>
                  cases tl with
                  | nil => simp only [List.map_cons, List.map_nil]
                  | cons c tl2 =>
                      simp only [List.map_cons]
                      rw [stripDefaults_anyOfNode]
                      simp only [List.map_cons]
            · -- date
              rw [stripDefaults_flat _ ⟨rfl, rfl, rfl, rfl, rfl, rfl, rfl⟩ rfl]
            · -- binary
              rw [stripDefaults_flat _ ⟨rfl, rfl, rfl, rfl, rfl, rfl, rfl⟩ rfl]
            · -- unrecognized tag
              rw [stripDefaults_emptyNode]
          · intro hho
            simp only [Bool.and_eq_true] at hho
            obtain ⟨hc, hno⟩ := hho
            split
            · exact ⟨"string", (Joi.convertString_shape dd _).2.2.2⟩
            · obtain ⟨_, _, _, t, ht⟩ := Joi.convertNumber_shape dd
              exact ⟨t, ht⟩
            · exact ⟨"boolean", rfl⟩
            · exact ⟨"object", rfl⟩
            · split
              · exact ⟨"array", rfl⟩
              · refine ⟨"array", ?_⟩
                show (List.foldl Joi.applyArrayRule _ dd.rules).type =
                  some (.single "array")
                rw [(Joi.foldl_applyArrayRule_inert dd.rules _).2.2.2]
                split <;> rfl
            · exfalso
              rename_i heq
              have honly : dd.flags.only ≠ some true := by
                intro hcon
                rw [hcon] at hno
                simp at hno
              simp only [hc, Bool.not_true, Bool.false_or, Bool.or_eq_true,
                decide_eq_true_eq] at hs1
              rcases hs1 with h1 | h1
              · exact honly h1
              · rw [heq] at h1
                simp [Joi.joiSafeTypes] at h1
            · exact ⟨"string", rfl⟩
            · exact ⟨"string", rfl⟩
            · exfalso
              have honly : dd.flags.only ≠ some true := by
                intro hcon
                rw [hcon] at hno
                simp at hno
              simp only [hc, Bool.not_true, Bool.false_or, Bool.or_eq_true,
                decide_eq_true_eq] at hs1
              rcases hs1 with h1 | h1
              · exact honly h1
              · simp [Joi.joiSafeTypes] at h1
                simp_all

-- ─── C7: claim theorems ──────────────────────────────────────────────────────

/-- Concrete description for the C7 counterexample: type `any` with a
default flag and a null allowance. -/
def joiNullDefaultExample : Joi.JoiDescription :=
  .mk { type := "any", flags := { default := some (.int 5) },
        allow := [JVal.null] }

/-- Counterexample to C7 as stated: for a Dialect-B description of type
`any` carrying a default flag and allowing null, the `includeDefaults:
false` run returns `{}` (the defaults-less node is empty, so the nullable
fold-in returns it unchanged), while the `includeDefaults: true` run wraps
the default-carrying node in `anyOf` — so stripping the `default` fields
from the latter leaves an `anyOf` node, not `{}`. -/
theorem claim_C7_counterexample :
    Joi.convertJoiDescription joiNullDefaultExample ⟨true, false, 20⟩ 0 ≠
      stripDefaults
        (Joi.convertJoiDescription joiNullDefaultExample ⟨true, true, 20⟩ 0) := by
  intro h
  have h2 : (stripDefaults
      (Joi.convertJoiDescription joiNullDefaultExample ⟨true, true, 20⟩ 0)).f.anyOf.isSome
      = true := by
    rw [show Joi.convertJoiDescription joiNullDefaultExample ⟨true, true, 20⟩ 0 =
        .mk { anyOf := some [.mk { default := some (.int 5) },
                             .mk { type := some (.single "null") }] } from rfl,
      stripDefaults_mk]
    rfl
  rw [← h] at h2
  have h3 : (Joi.convertJoiDescription joiNullDefaultExample
      ⟨true, false, 20⟩ 0).f.anyOf.isSome = false := rfl
  rw [h2] at h3
  exact Bool.noConfusion h3

/-- C7 as amended: for Dialect-A both option toggles commute with the
corresponding strip unconditionally — `includeDescriptions: false` yields
exactly the `true` run minus every `description`, and `includeDefaults:
false` yields exactly the `true` run minus every `default`, with no other
field affected.  For Dialect-B the same holds provided the description is
null-safe: every nested description allowing null without `flags.only`
carries one of the in-place-widening type tags (string, number, boolean,
object, array, date, binary) — otherwise the nullable fold-in's emptiness
test can flip between the runs and the outputs differ in more than the
stripped field. -/
theorem claim_C7_amended (zs : Zod.ZodSchema) (dd : Joi.JoiDescription)
    (b : Bool) (m : Nat) (depth : Nat)
    (hsafe : Joi.nullSafe dd = true) :
    (Zod.convertZodType zs ⟨false, b, m⟩ depth =
      stripDescriptions (Zod.convertZodType zs ⟨true, b, m⟩ depth)) ∧
    (Zod.convertZodType zs ⟨b, false, m⟩ depth =
      stripDefaults (Zod.convertZodType zs ⟨b, true, m⟩ depth)) ∧
    (Joi.convertJoiDescription dd ⟨false, b, m⟩ depth =
      stripDescriptions (Joi.convertJoiDescription dd ⟨true, b, m⟩ depth)) ∧
    (Joi.convertJoiDescription dd ⟨b, false, m⟩ depth =
      stripDefaults (Joi.convertJoiDescription dd ⟨b, true, m⟩ depth)) := by
  refine ⟨?_, ?_, ?_, ?_⟩
  · exact Zod.convertZodTypeFuel_stripDescriptions b m (m + 1 - depth) zs depth
  · exact Zod.convertZodTypeFuel_stripDefaults b m (m + 1 - depth) zs depth
  · exact Joi.convertJoiDescriptionFuel_stripDescriptions b m (m + 1 - depth)
      dd depth hsafe
  · exact Joi.convertJoiDescriptionFuel_stripDefaults b m (m + 1 - depth)
      dd depth hsafe

/-- Concrete null-safe description for the C7 witness. -/
def joiStringMetaExample : Joi.JoiDescription :=
  .mk { type := "string",
        flags := { description := some "doc", default := some (.str "x") } }

/-- Witness for the amended C7 at a described, defaulted string schema on
each side. -/
theorem claim_C7_amended_witness :
    Joi.nullSafe joiStringMetaExample = true ∧
    ((Zod.convertZodType (.string (some "doc") []) ⟨false, true, 20⟩ 0 =
       stripDescriptions
         (Zod.convertZodType (.string (some "doc") []) ⟨true, true, 20⟩ 0)) ∧
     (Zod.convertZodType (.string (some "doc") []) ⟨true, false, 20⟩ 0 =
       stripDefaults
         (Zod.convertZodType (.string (some "doc") []) ⟨true, true, 20⟩ 0)) ∧
     (Joi.convertJoiDescription joiStringMetaExample ⟨false, true, 20⟩ 0 =
       stripDescriptions
         (Joi.convertJoiDescription joiStringMetaExample ⟨true, true, 20⟩ 0)) ∧
     (Joi.convertJoiDescription joiStringMetaExample ⟨true, false, 20⟩ 0 =
       stripDefaults
         (Joi.convertJoiDescription joiStringMetaExample ⟨true, true, 20⟩ 0))) :=
  ⟨by simp [Joi.nullSafe, joiStringMetaExample],
   claim_C7_amended (.string (some "doc") []) joiStringMetaExample true 20 0
     (by simp [Joi.nullSafe, joiStringMetaExample])⟩
